import Mathlib

/-!
# Verification of the Word2Excel repository (Excel2Word.py / Word2Excel.py)

A shallow embedding of the two command-line pipelines:

* `Excel2Word.py` — copy a rectangular spreadsheet region into a fresh
  word-processor document containing one table;
* `Word2Excel.py` — copy a document table into a rectangular spreadsheet
  region, applying wrap-text, vertical-top alignment and thin borders.

Modelling conventions:

* Python strings are `List Char` (`Str`); the Python string methods used by
  the sources (`strip`, `isdigit`, `upper`, `split`, `replace`, `join`) are
  embedded over the ASCII range plus the non-breaking space, the only
  characters the programs' behavior distinguishes.
* Spreadsheet cell values are modelled by their `str()` rendering, so a
  source cell holds `Option Str` (`none` = absent cell, rendered `""`).
* A document table cell stores exactly the text assigned to it
  (python-docx round-trips the assigned text of a cell).
* Fallible steps return `Option`/`Except`.  For the two `main` pipelines a
  `.error` result means the process terminated with a non-zero exit status
  before the destination file was saved, and `.ok` carries the content of
  the saved destination file.
* External-library entry points that the sources call (`openpyxl`,
  `python-docx`) are not part of the repository; each such definition is
  marked `Modelled from the spec:` and follows the specification's
  description of that behavior.
-/

namespace WordExcel

/-- Python strings, modelled as lists of characters. -/
abbrev Str := List Char

/-- The non-breaking space character `"\xa0"` replaced by
`read_table_from_word`. -/
def nbsp : Char := '\xa0'

/-- Whitespace as recognised by Python's `str.strip()` / `str.split()`,
restricted to the ASCII whitespace characters plus the non-breaking space
(Python's `str.isspace()` is true on `"\xa0"`). -/
def isPySpace (c : Char) : Bool :=
  c = ' ' || c = '\t' || c = '\n' || c = '\r' || c = '\x0b' || c = '\x0c' || c = nbsp

/-- ASCII decimal digit test. -/
def isAsciiDigit (c : Char) : Bool :=
  '0' ≤ c && c ≤ '9'

/-- Python `str.strip()`: remove leading and trailing whitespace. -/
def pyStrip (s : Str) : Str :=
  ((s.dropWhile isPySpace).reverse.dropWhile isPySpace).reverse

/-- Python `str.isdigit()`: nonempty and every character a digit. -/
def pyIsDigit (s : Str) : Bool :=
  !s.isEmpty && s.all isAsciiDigit

/-- Value of an all-digit string, as computed by Python's `int(...)`. -/
def digitsToNat (s : Str) : Nat :=
  s.foldl (fun a c => a * 10 + (c.toNat - 48)) 0

/-- Uppercase ASCII letter test. -/
def isUpperAlpha (c : Char) : Bool :=
  'A' ≤ c && c ≤ 'Z'

/-- Modelled from the spec: `openpyxl.utils.column_index_from_string` (the
library is not part of the repository sources).  Standard base-26
spreadsheet column decoding `A=1 … Z=26, AA=27 …`, defined for nonempty
sequences of uppercase letters and failing (`ValueError`) otherwise. -/
def column_index_from_string (s : Str) : Option Nat :=
  if !s.isEmpty && s.all isUpperAlpha then
    some (s.foldl (fun a c => a * 26 + (c.toNat - 64)) 0)
  else
    none

/-- `parse_col_arg` (identical in `Excel2Word.py` lines 26-37 and
`Word2Excel.py` lines 22-29): strip the token; if it is all digits parse it
as an integer, rejecting values `< 1`; otherwise uppercase it and decode it
as a spreadsheet column letter sequence.  `none` models the raised
exception (`ValueError`), which `main` turns into exit status 1. -/
def parse_col_arg (x : Str) : Option Nat :=
  let s := pyStrip x
  if pyIsDigit s then
    let val := digitsToNat s
    if val < 1 then none else some val
  else
    column_index_from_string (s.map Char.toUpper)

/-! ## Text normalization used by `read_table_from_word` -/

/-- `cell.text.replace("\xa0", " ")` in `Word2Excel.py` line 42. -/
def replaceNbsp (s : Str) : Str :=
  s.map fun c => if c = nbsp then ' ' else c

/-- Python `str.split()` with no separator: the list of maximal runs of
non-whitespace characters (leading, trailing and repeated whitespace
produce no empty words). -/
def pySplit : Str → List Str
  | [] => []
  | [c] => if isPySpace c then [] else [[c]]
  | c :: d :: rest =>
    if isPySpace c then
      pySplit (d :: rest)
    else if isPySpace d then
      [c] :: pySplit (d :: rest)
    else
      match pySplit (d :: rest) with
      | [] => [[c]]
      | w :: ws => (c :: w) :: ws

/-- Python `" ".join(words)`: concatenate with a single ASCII space between
consecutive words. -/
def joinSpace : List Str → Str
  | [] => []
  | [w] => w
  | w :: ws => w ++ ' ' :: joinSpace ws

/-- The per-cell text cleanup of `read_table_from_word`
(`Word2Excel.py` line 42): `" ".join(cell.text.replace("\xa0", " ").split())`. -/
def normalizeCellText (s : Str) : Str :=
  joinSpace (pySplit (replaceNbsp s))

/-- Spec-side description of the cleanup, stated independently of the code:
every maximal run of whitespace (non-breaking space included, via
`isPySpace`) is collapsed to a single ASCII space, other characters are
kept. -/
def collapseRuns : Str → Str
  | [] => []
  | [c] => if isPySpace c then [' '] else [c]
  | c :: d :: rest =>
    if isPySpace c then
      if isPySpace d then collapseRuns (d :: rest) else ' ' :: collapseRuns (d :: rest)
    else
      c :: collapseRuns (d :: rest)

/-- The single leading space that `collapseRuns` produces when the string
starts with whitespace (bookkeeping device for relating `collapseRuns` to
`pySplit`). -/
def leadWs : Str → Str
  | [] => []
  | c :: _ => if isPySpace c then [' '] else []

/-- Whether a string ends in a whitespace character. -/
def lastIsSpace (s : Str) : Bool :=
  match s.getLast? with
  | some c => isPySpace c
  | none => false

/-- The single trailing space that `collapseRuns` produces when the string
ends with whitespace and contains at least one word. -/
def trailWs (s : Str) : Str :=
  if lastIsSpace s = true ∧ pySplit s ≠ [] then [' '] else []

/-! ## Grids

Both the spreadsheet cell store and a freshly created document table are
rectangular stores addressed by two indices; the sources mutate one cell
at a time inside nested `for` loops.  `Grid` is the store, `setG` a single
cell assignment, `foldG` the nested loop. -/

/-- A two-dimensional cell store. -/
def Grid (α : Type) := Nat → Nat → α

/-- Assign one cell of a grid. -/
def setG (s : Grid α) (r c : Nat) (v : α) : Grid α :=
  fun r' c' => if r' = r ∧ c' = c then v else s r' c'

/-- Nested `for r in rs: for c in cs:` loop where each iteration replaces
cell `(r, c)` by a function of its current content and position. -/
def foldG (rs cs : List Nat) (g : α → Nat → Nat → α) (s : Grid α) : Grid α :=
  rs.foldl (fun s r => cs.foldl (fun s c => setG s r c (g (s r c) r c)) s) s

/-! ## The document model (python-docx side) -/

/-- Modelled from the spec: a table freshly created by python-docx
`document.add_table(rows, cols)` — a `nrows × ncols` store of cell texts,
initially all empty; a cell stores exactly the text assigned to it. -/
structure DocxTable where
  nrows : Nat
  ncols : Nat
  text : Grid Str

/-- `doc.add_table(rows=nrows, cols=ncols)` (`Excel2Word.py` line 106). -/
def add_table (nrows ncols : Nat) : DocxTable :=
  ⟨nrows, ncols, fun _ _ => []⟩

/-- The nested cell-assignment loop of `Excel2Word.py` lines 110-113:
`tbl.cell(i, j).text = data[i][j]` for every `i < nrows`, `j < ncols`. -/
def DocxTable.fill (t : DocxTable) (data : List (List Str)) : DocxTable :=
  { t with
    text := foldG (List.range t.nrows) (List.range t.ncols)
      (fun _ i j => (data.getD i []).getD j []) t.text }

/-- Modelled from the spec: reading a table back through python-docx
(`tbl.rows` / `row.cells`) lists the rows of cell texts in order. -/
def DocxTable.toRows (t : DocxTable) : List (List Str) :=
  (List.range t.nrows).map fun i => (List.range t.ncols).map fun j => t.text i j

/-- A document as the importer sees it: the list of its tables, each table
a list of rows of cell texts (rows of an arbitrary document table may have
unequal lengths). -/
structure DocxDoc where
  tables : List (List (List Str))
deriving DecidableEq, Repr

/-! ## The spreadsheet model (openpyxl side) -/

/-- `openpyxl.styles.Side(border_style=..., color=...)`. -/
structure XSide where
  style : Str
  color : Str
deriving DecidableEq, Repr

/-- `openpyxl.styles.Border`, with the four sides used by the source. -/
structure XBorder where
  left : Option XSide
  right : Option XSide
  top : Option XSide
  bottom : Option XSide
deriving DecidableEq, Repr

/-- `openpyxl.styles.Alignment`, with the two fields used by the source. -/
structure XAlignment where
  wrap_text : Bool
  vertical : Str
deriving DecidableEq, Repr

/-- The state of one destination-spreadsheet cell: its value (as written
text, `none` if never written) and its style attributes.

Modelled from the spec: a cell that was never touched has no value and no
border side set (in particular its left border is unset, so the
uniform-border pass of the importer recognises it as unformatted). -/
structure XCell where
  value : Option Str
  alignment : Option XAlignment
  border : Option XBorder
deriving DecidableEq, Repr

/-- The untouched-cell state. -/
def emptyXCell : XCell :=
  ⟨none, none, none⟩

/-- A destination worksheet: 1-based row/column cell store. -/
abbrev XSheet := Grid XCell

/-- An openpyxl workbook: named sheets plus the active sheet. -/
structure Workbook where
  sheets : List (Str × Grid XCell)
  active : Grid XCell

/-- Modelled from the spec: `openpyxl.Workbook()` — a new empty workbook
whose active sheet has every cell untouched. -/
def pyWorkbookNew : Workbook :=
  ⟨[], fun _ _ => emptyXCell⟩

/-- `ensure_workbook` (`Word2Excel.py` lines 48-55): open the destination
if it exists, silently falling back to a fresh workbook when opening
raises; otherwise create a fresh workbook.  `loadResult = none` models
`load_workbook` raising an exception. -/
def ensure_workbook (pathExists : Bool) (loadResult : Option Workbook) : Workbook :=
  if pathExists then
    match loadResult with
    | some wb => wb
    | none => pyWorkbookNew
  else
    pyWorkbookNew

/-- Sheet selection of `Word2Excel.py` line 100:
`wb[args.sheet] if args.sheet and args.sheet in wb.sheetnames else wb.active`
(`args.sheet` is falsy when absent or empty). -/
def w2eSelect (wb : Workbook) (sheet : Option Str) : Grid XCell :=
  match sheet with
  | none => wb.active
  | some s =>
    if !s.isEmpty && (wb.sheets.map Prod.fst).contains s then
      match wb.sheets.lookup s with
      | some ws => ws
      | none => wb.active
    else
      wb.active

/-! ## `Word2Excel.py` -/

/-- Errors terminating the import with a non-zero exit status.  All are
reported through `sys.exit(1)` except `uncaughtMax`, which models the
uncaught `ValueError` raised by `max()` on an empty sequence at line 95
(exiting with a traceback, also non-zero, before any write). -/
inductive ReadErr
  | openFailed
  | tableIndexOutOfRange
deriving DecidableEq, Repr

inductive W2EErr
  | fileNotFound
  | colArg
  | invalidRange
  | readWord (e : ReadErr)
  | uncaughtMax
deriving DecidableEq, Repr

/-- `read_table_from_word` (`Word2Excel.py` lines 32-45): open the
document (`openResult = none` models `Document(word_path)` raising), check
the table index, and read the chosen table into a grid of cleaned-up cell
texts. -/
def read_table_from_word (openResult : Option DocxDoc) (table_index : Int) :
    Except ReadErr (List (List Str)) :=
  match openResult with
  | none => .error .openFailed
  | some doc =>
    if table_index < 0 ∨ (doc.tables.length : Int) ≤ table_index then
      .error .tableIndexOutOfRange
    else
      .ok ((doc.tables.getD table_index.toNat []).map (List.map normalizeCellText))

/-- `max(len(r) for r in table_data)` (`Word2Excel.py` line 95): the
maximum row length, undefined (`ValueError`) on an empty table. -/
def maxRowLen : List (List Str) → Option Nat
  | [] => none
  | r :: rs => some ((rs.map List.length).foldl max r.length)

/-- The wrap-text/top alignment of `Word2Excel.py` line 108. -/
def xAlign : XAlignment :=
  ⟨true, "top".toList⟩

/-- The thin black side of `Word2Excel.py` line 109. -/
def xThin : XSide :=
  ⟨"thin".toList, "000000".toList⟩

/-- The all-sides-thin border of `Word2Excel.py` line 110. -/
def border_style : XBorder :=
  ⟨some xThin, some xThin, some xThin, some xThin⟩

/-- One iteration of the second formatting pass (`Word2Excel.py` lines
127-130): re-apply the border only when no border is set or its left side
is unset, then apply the alignment unconditionally. -/
def borderFixCell (cl : XCell) : XCell :=
  let cl' :=
    match cl.border with
    | none => { cl with border := some border_style }
    | some b => if b.left = none then { cl with border := some border_style } else cl
  { cl' with alignment := some xAlign }

/-- The two write loops of `Word2Excel.py` lines 102-130 over the
destination sheet `ws0`: write `min` extents of data with value, alignment
and border, then walk the whole requested range fixing borders and
alignment. -/
def word2excel_write (table_data : List (List Str)) (cols_word : Nat)
    (r1 r2 c1 c2 : Nat) (ws0 : XSheet) : XSheet :=
  let rows_word := table_data.length
  let nrows_target := r2 + 1 - r1
  let ncols_target := c2 + 1 - c1
  let rows_to_write := min rows_word nrows_target
  let cols_to_write := min cols_word ncols_target
  let s1 := foldG (List.range' r1 rows_to_write) (List.range' c1 cols_to_write)
    (fun cl r c =>
      let row := table_data.getD (r - r1) []
      let val := if c - c1 < row.length then row.getD (c - c1) [] else []
      { cl with value := some val, alignment := some xAlign, border := some border_style })
    ws0
  foldG (List.range' r1 nrows_target) (List.range' c1 ncols_target)
    (fun cl _ _ => borderFixCell cl) s1

/-- Command-line arguments of `Word2Excel.py` (after argparse). -/
structure W2EArgs where
  table_index : Int
  row_start : Int
  row_end : Int
  col_start : Str
  col_end : Str
  sheet : Option Str

/-- The environment an import run observes. -/
structure W2EWorld where
  wordExists : Bool
  docOpen : Option DocxDoc
  excelOutExists : Bool
  loadResult : Option Workbook

/-- `main` of `Word2Excel.py` (lines 58-135).  `.error` = the process
exited with a non-zero status and the destination spreadsheet was not
saved; `.ok ws` = the run saved a workbook whose written sheet is `ws`. -/
def word2excel_main (args : W2EArgs) (w : W2EWorld) : Except W2EErr XSheet :=
  if !w.wordExists then .error .fileNotFound else
  match parse_col_arg args.col_start with
  | none => .error .colArg
  | some c1 =>
  match parse_col_arg args.col_end with
  | none => .error .colArg
  | some c2 =>
  let r1 := args.row_start
  let r2 := args.row_end
  if r1 < 1 ∨ r2 < r1 ∨ c1 < 1 ∨ c2 < c1 then .error .invalidRange else
  match read_table_from_word w.docOpen args.table_index with
  | .error e => .error (.readWord e)
  | .ok table_data =>
  match maxRowLen table_data with
  | none => .error .uncaughtMax
  | some cols_word =>
    let wb := ensure_workbook w.excelOutExists w.loadResult
    let ws0 := w2eSelect wb args.sheet
    .ok (word2excel_write table_data cols_word r1.toNat r2.toNat c1 c2 ws0)

/-! ## `Excel2Word.py` -/

/-- A source worksheet: cell values by 1-based row/column, `none` when the
cell is absent; a present value is modelled by its `str()` rendering. -/
abbrev SheetData := Grid (Option Str)

/-- A source workbook for the exporter. -/
structure E2WWorkbook where
  sheets : List (Str × SheetData)
  active : SheetData

/-- Errors terminating the export with exit status 1. -/
inductive E2WErr
  | fileNotFound
  | colArg
  | invalidRow
  | invalidRange
  | openExcel
  | sheetNotFound
deriving DecidableEq, Repr

/-- Sheet selection of `Excel2Word.py` line 74:
`wb[args.sheet] if args.sheet else wb.active`; an unknown name raises
`KeyError` (→ `none`), an absent or empty (falsy) name selects the active
sheet. -/
def e2wSelect (wb : E2WWorkbook) (sheet : Option Str) : Option SheetData :=
  match sheet with
  | none => some wb.active
  | some s =>
    if s.isEmpty then some wb.active
    else wb.sheets.lookup s

/-- The value-to-text step of `Excel2Word.py` line 92:
`"" if val is None else str(val)`. -/
def pyStr : Option Str → Str
  | none => []
  | some v => v

/-- The region-reading loops of `Excel2Word.py` lines 87-93: the text grid
of rows `r1..r2`, columns `c1..c2` (inclusive). -/
def regionData (ws : SheetData) (r1 r2 c1 c2 : Nat) : List (List Str) :=
  (List.range' r1 (r2 + 1 - r1)).map fun r =>
    (List.range' c1 (c2 + 1 - c1)).map fun c => pyStr (ws r c)

/-- Document construction of `Excel2Word.py` lines 96-113: a fresh
document holding a single `nrows × ncols` table filled cell-by-cell from
`data` (heading, fonts, table style and centering are not modelled; no
claim mentions them). -/
def mkDocument (data : List (List Str)) (nrows ncols : Nat) : DocxDoc :=
  ⟨[((add_table nrows ncols).fill data).toRows]⟩

/-- Command-line arguments of `Excel2Word.py` (after argparse). -/
structure E2WArgs where
  row_start : Int
  row_end : Int
  col_start : Str
  col_end : Str
  sheet : Option Str

/-- The environment an export run observes. -/
structure E2WWorld where
  excelExists : Bool
  loadResult : Option E2WWorkbook

/-- `main` of `Excel2Word.py` (lines 39-120).  `.error` = the process
exited with a non-zero status and no document was saved; `.ok doc` = the
run saved `doc`. -/
def excel2word_main (args : E2WArgs) (w : E2WWorld) : Except E2WErr DocxDoc :=
  if !w.excelExists then .error .fileNotFound else
  match parse_col_arg args.col_start with
  | none => .error .colArg
  | some c1 =>
  match parse_col_arg args.col_end with
  | none => .error .colArg
  | some c2 =>
  if args.row_start < 1 ∨ args.row_end < 1 then .error .invalidRow else
  if c2 < c1 ∨ args.row_end < args.row_start then .error .invalidRange else
  match w.loadResult with
  | none => .error .openExcel
  | some wb =>
    match e2wSelect wb args.sheet with
    | none => .error .sheetNotFound
    | some ws =>
      let r1 := args.row_start.toNat
      let r2 := args.row_end.toNat
      let nrows := r2 + 1 - r1
      let ncols := c2 + 1 - c1
      .ok (mkDocument (regionData ws r1 r2 c1 c2) nrows ncols)

/-! ## Concrete instances used below -/

/-- Source sheet of the spec's export scenario: values `a`, `b`, `c` at
rows 2-3, columns C-D, all other cells absent. -/
def wsC4 : SheetData := fun r c =>
  if r = 2 ∧ c = 3 then some ('a' :: [])
  else if r = 2 ∧ c = 4 then some ('b' :: [])
  else if r = 3 ∧ c = 3 then some ('c' :: [])
  else none

/-- Workbook holding `wsC4` as its active sheet. -/
def e2wWbC4 : E2WWorkbook := ⟨[], wsC4⟩

/-- Export arguments: rows 2-4, columns C-D. -/
def eArgsC4 : E2WArgs := ⟨2, 4, 'C' :: [], 'D' :: [], none⟩

/-- Export environment for the scenario. -/
def eWorldC4 : E2WWorld := ⟨true, some e2wWbC4⟩

/-- Document of the spec's import scenario: one table with the irregular
rows `["x", "y", "z"]` and `["1", "2"]`. -/
def docC5 : DocxDoc :=
  ⟨[[['x' :: [], 'y' :: [], 'z' :: []], ['1' :: [], '2' :: []]]]⟩

/-- Import arguments: table 0 into rows 1-2, columns A-D. -/
def wArgsC5 : W2EArgs := ⟨0, 1, 2, 'A' :: [], 'D' :: [], none⟩

/-- Import environment: document present, destination file absent. -/
def wWorldC5 : W2EWorld := ⟨true, some docC5, false, none⟩

/-- A pre-existing border unlike the thin black one: thick red left side
only. -/
def oldBorderC6 : XBorder :=
  ⟨some ⟨"thick".toList, "FF0000".toList⟩, none, none, none⟩

/-- A destination sheet whose cell (1, 2) already carries `oldBorderC6`. -/
def wsC6 : Grid XCell := fun r c =>
  if r = 1 ∧ c = 2 then ⟨none, none, some oldBorderC6⟩ else emptyXCell

/-- A loadable destination workbook containing `wsC6`. -/
def wbC6 : Workbook := ⟨[], wsC6⟩

/-- A single-cell document table. -/
def docC6 : DocxDoc := ⟨[[['x' :: []]]]⟩

/-- Import arguments: table 0 into row 1, columns A-B. -/
def wArgsC6 : W2EArgs := ⟨0, 1, 1, 'A' :: [], 'B' :: [], none⟩

/-- Import environment whose destination file exists and loads as `wbC6`. -/
def wWorldC6 : W2EWorld := ⟨true, some docC6, true, some wbC6⟩

/-- Source sheet whose single value `" a"` carries leading whitespace. -/
def wsC1 : SheetData := fun r c =>
  if r = 1 ∧ c = 1 then some (' ' :: 'a' :: []) else none

/-- Export arguments for the 1×1 round trip. -/
def eArgsC1 : E2WArgs := ⟨1, 1, 'A' :: [], 'A' :: [], none⟩

/-- Export environment holding `wsC1`. -/
def eWorldC1 : E2WWorld := ⟨true, some ⟨[], wsC1⟩⟩

/-- Import arguments for the 1×1 round trip. -/
def wArgsC1 : W2EArgs := ⟨0, 1, 1, 'A' :: [], 'A' :: [], none⟩

/-- Import environment reading back the exported document. -/
def wWorldC1 : W2EWorld :=
  ⟨true, (excel2word_main eArgsC1 eWorldC1).toOption, false, none⟩

/-- Import arguments requesting the out-of-range table index 5. -/
def wArgsC8 : W2EArgs := ⟨5, 1, 1, 'A' :: [], 'A' :: [], none⟩

/-- Import environment for the table-index check against `docC5`. -/
def wWorldC8 : W2EWorld := ⟨true, some docC5, false, none⟩

/-- Import environment whose destination file exists but fails to load. -/
def wWorldC9 : W2EWorld := ⟨true, some docC5, true, none⟩

/-- A document whose only table has zero rows. -/
def docC10 : DocxDoc := ⟨[[]]⟩

/-- Import arguments for the zero-row table. -/
def wArgsC10 : W2EArgs := ⟨0, 1, 1, 'A' :: [], 'A' :: [], none⟩

/-- Import environment holding the zero-row-table document. -/
def wWorldC10 : W2EWorld := ⟨true, some docC10, false, none⟩

/-! ## Character lemmas -/

theorem toNat_ofNat_of_valid {n : Nat} (h : n.isValidChar) : (Char.ofNat n).toNat = n := by
  rw [Char.ofNat, dif_pos h]
  rfl

theorem toUpper_toLower (c : Char) : c.toLower.toUpper = c.toUpper := by
  unfold Char.toLower Char.toUpper
  by_cases h : 65 ≤ c.toNat ∧ c.toNat ≤ 90
  · rw [if_pos h]
    have hv : (c.toNat + 32).isValidChar := Or.inl (by omega)
    have ht : (Char.ofNat (c.toNat + 32)).toNat = c.toNat + 32 := toNat_ofNat_of_valid hv
    rw [ht, if_pos (by omega), if_neg (by omega)]
    have h32 : c.toNat + 32 - 32 = c.toNat := by omega
    rw [h32, Char.ofNat_toNat]
  · rw [if_neg h]

theorem toUpper_toUpper (c : Char) : c.toUpper.toUpper = c.toUpper := by
  unfold Char.toUpper
  by_cases h : 97 ≤ c.toNat ∧ c.toNat ≤ 122
  · rw [if_pos h]
    have hv : (c.toNat - 32).isValidChar := Or.inl (by omega)
    have ht : (Char.ofNat (c.toNat - 32)).toNat = c.toNat - 32 := toNat_ofNat_of_valid hv
    rw [if_neg (by omega)]
  · rw [if_neg h, if_neg h]

theorem isPySpace_iff (c : Char) :
    isPySpace c = true ↔
      c.toNat = 32 ∨ c.toNat = 9 ∨ c.toNat = 10 ∨ c.toNat = 13 ∨ c.toNat = 11 ∨
        c.toNat = 12 ∨ c.toNat = 160 := by
  constructor
  · intro h
    simp only [isPySpace, Bool.or_eq_true, decide_eq_true_eq] at h
    rcases h with (((((h | h) | h) | h) | h) | h) | h <;> subst h <;> decide
  · intro h
    have he : c = Char.ofNat c.toNat := (Char.ofNat_toNat c).symm
    rcases h with h | h | h | h | h | h | h <;>
      · rw [he, h]
        decide

theorem toLower_of_toNat_out (c : Char) (h : ¬(65 ≤ c.toNat ∧ c.toNat ≤ 90)) :
    c.toLower = c := by
  unfold Char.toLower
  rw [if_neg h]

theorem toUpper_of_toNat_out (c : Char) (h : ¬(97 ≤ c.toNat ∧ c.toNat ≤ 122)) :
    c.toUpper = c := by
  unfold Char.toUpper
  rw [if_neg h]

theorem isPySpace_toLower (c : Char) : isPySpace c.toLower = isPySpace c := by
  by_cases h : 65 ≤ c.toNat ∧ c.toNat ≤ 90
  · unfold Char.toLower
    rw [if_pos h]
    have hv : (c.toNat + 32).isValidChar := Or.inl (by omega)
    have ht : (Char.ofNat (c.toNat + 32)).toNat = c.toNat + 32 := toNat_ofNat_of_valid hv
    rcases hc : isPySpace c with hc2 | hc2
    all_goals rcases hd : isPySpace (Char.ofNat (c.toNat + 32)) with hd2 | hd2
    all_goals first
      | rfl
      | · exfalso
          first
            | · have := (isPySpace_iff _).mp hd
                rw [ht] at this
                omega
            | · have := (isPySpace_iff _).mp hc
                omega
  · rw [toLower_of_toNat_out c h]

theorem isPySpace_toUpper (c : Char) : isPySpace c.toUpper = isPySpace c := by
  by_cases h : 97 ≤ c.toNat ∧ c.toNat ≤ 122
  · unfold Char.toUpper
    rw [if_pos h]
    have hv : (c.toNat - 32).isValidChar := Or.inl (by omega)
    have ht : (Char.ofNat (c.toNat - 32)).toNat = c.toNat - 32 := toNat_ofNat_of_valid hv
    rcases hc : isPySpace c with hc2 | hc2
    all_goals rcases hd : isPySpace (Char.ofNat (c.toNat - 32)) with hd2 | hd2
    all_goals first
      | rfl
      | · exfalso
          first
            | · have := (isPySpace_iff _).mp hd
                rw [ht] at this
                omega
            | · have := (isPySpace_iff _).mp hc
                omega
  · rw [toUpper_of_toNat_out c h]

theorem isAsciiDigit_iff (c : Char) :
    isAsciiDigit c = true ↔ 48 ≤ c.toNat ∧ c.toNat ≤ 57 := by
  unfold isAsciiDigit
  simp only [Bool.and_eq_true, decide_eq_true_eq]
  exact Iff.rfl

theorem toLower_of_digit (c : Char) (h : isAsciiDigit c = true) : c.toLower = c := by
  have := (isAsciiDigit_iff c).mp h
  exact toLower_of_toNat_out c (by omega)

theorem toUpper_of_digit (c : Char) (h : isAsciiDigit c = true) : c.toUpper = c := by
  have := (isAsciiDigit_iff c).mp h
  exact toUpper_of_toNat_out c (by omega)

theorem isAsciiDigit_toLower (c : Char) : isAsciiDigit c.toLower = isAsciiDigit c := by
  by_cases h : 65 ≤ c.toNat ∧ c.toNat ≤ 90
  · unfold Char.toLower
    rw [if_pos h]
    have hv : (c.toNat + 32).isValidChar := Or.inl (by omega)
    have ht : (Char.ofNat (c.toNat + 32)).toNat = c.toNat + 32 := toNat_ofNat_of_valid hv
    have h1 : isAsciiDigit (Char.ofNat (c.toNat + 32)) = false := by
      rcases hd : isAsciiDigit (Char.ofNat (c.toNat + 32)) with hd2 | hd2
      · rfl
      · exfalso
        have := (isAsciiDigit_iff _).mp hd
        rw [ht] at this
        omega
    have h2 : isAsciiDigit c = false := by
      rcases hd : isAsciiDigit c with hd2 | hd2
      · rfl
      · exfalso
        have := (isAsciiDigit_iff _).mp hd
        omega
    rw [h1, h2]
  · rw [toLower_of_toNat_out c h]

theorem isAsciiDigit_toUpper (c : Char) : isAsciiDigit c.toUpper = isAsciiDigit c := by
  by_cases h : 97 ≤ c.toNat ∧ c.toNat ≤ 122
  · unfold Char.toUpper
    rw [if_pos h]
    have hv : (c.toNat - 32).isValidChar := Or.inl (by omega)
    have ht : (Char.ofNat (c.toNat - 32)).toNat = c.toNat - 32 := toNat_ofNat_of_valid hv
    have h1 : isAsciiDigit (Char.ofNat (c.toNat - 32)) = false := by
      rcases hd : isAsciiDigit (Char.ofNat (c.toNat - 32)) with hd2 | hd2
      · rfl
      · exfalso
        have := (isAsciiDigit_iff _).mp hd
        rw [ht] at this
        omega
    have h2 : isAsciiDigit c = false := by
      rcases hd : isAsciiDigit c with hd2 | hd2
      · rfl
      · exfalso
        have := (isAsciiDigit_iff _).mp hd
        omega
    rw [h1, h2]
  · rw [toUpper_of_toNat_out c h]

/-! ## String lemmas for `parse_col_arg` -/

theorem map_fix_of_all (s : Str) (f : Char → Char) (h : ∀ c ∈ s, f c = c) :
    s.map f = s := by
  induction s with
  | nil => rfl
  | cons a l ih =>
    simp only [List.map_cons, List.cons.injEq]
    exact ⟨h a (by simp), ih fun c hc => h c (by simp [hc])⟩

theorem pyStrip_map (f : Char → Char) (hf : ∀ c, isPySpace (f c) = isPySpace c)
    (s : Str) : pyStrip (s.map f) = (pyStrip s).map f := by
  have hcomp : (isPySpace ∘ f) = isPySpace := funext hf
  unfold pyStrip
  rw [List.dropWhile_map, hcomp, ← List.map_reverse, List.dropWhile_map, hcomp,
    ← List.map_reverse]

theorem pyIsDigit_map (f : Char → Char) (hf : ∀ c, isAsciiDigit (f c) = isAsciiDigit c)
    (s : Str) : pyIsDigit (s.map f) = pyIsDigit s := by
  unfold pyIsDigit
  have hcomp : (isAsciiDigit ∘ f) = isAsciiDigit := funext hf
  cases s with
  | nil => rfl
  | cons a l =>
    simp only [List.map_cons, List.isEmpty_cons, List.all_cons, List.all_map, hcomp,
      Function.comp_apply, hf a]

theorem foldl26_ge {s : Str} {a : Nat} (ha : 1 ≤ a) :
    1 ≤ s.foldl (fun a c => a * 26 + (c.toNat - 64)) a := by
  induction s generalizing a with
  | nil => exact ha
  | cons c t ih =>
    simp only [List.foldl_cons]
    exact ih (by omega)

theorem column_index_from_string_pos {s : Str} {v : Nat}
    (h : column_index_from_string s = some v) : 1 ≤ v := by
  unfold column_index_from_string at h
  split at h
  case isFalse => exact absurd h (by simp)
  case isTrue hc =>
    rw [Option.some.injEq] at h
    subst h
    simp only [Bool.and_eq_true, Bool.not_eq_true', List.isEmpty_eq_false,
      List.all_eq_true] at hc
    obtain ⟨hne, hall⟩ := hc
    cases s with
    | nil => exact absurd rfl hne
    | cons c t =>
      simp only [List.foldl_cons, Nat.zero_mul, Nat.zero_add]
      have hcA : isUpperAlpha c = true := hall c (by simp)
      have : 65 ≤ c.toNat := by
        unfold isUpperAlpha at hcA
        simp only [Bool.and_eq_true, decide_eq_true_eq] at hcA
        exact hcA.1
      exact foldl26_ge (by omega)

theorem parse_col_arg_pos {x : Str} {v : Nat} (h : parse_col_arg x = some v) :
    1 ≤ v := by
  unfold parse_col_arg at h
  simp only at h
  split at h
  · split at h
    · exact absurd h (by simp)
    · rw [Option.some.injEq] at h
      omega
  · exact column_index_from_string_pos h

theorem parse_col_arg_lower_upper (t : Str) :
    parse_col_arg (t.map Char.toLower) = parse_col_arg (t.map Char.toUpper) := by
  unfold parse_col_arg
  simp only
  rw [pyStrip_map _ isPySpace_toLower, pyStrip_map _ isPySpace_toUpper,
    pyIsDigit_map _ isAsciiDigit_toLower, pyIsDigit_map _ isAsciiDigit_toUpper]
  by_cases hd : pyIsDigit (pyStrip t) = true
  · rw [if_pos hd, if_pos hd]
    have hall : ∀ c ∈ pyStrip t, isAsciiDigit c = true := by
      unfold pyIsDigit at hd
      simp only [Bool.and_eq_true, List.all_eq_true] at hd
      exact hd.2
    rw [map_fix_of_all _ _ fun c hc => toLower_of_digit c (hall c hc),
      map_fix_of_all _ _ fun c hc => toUpper_of_digit c (hall c hc)]
  · rw [if_neg hd, if_neg hd, List.map_map, List.map_map]
    have : (Char.toUpper ∘ Char.toLower) = (Char.toUpper ∘ Char.toUpper) := by
      funext c
      simp only [Function.comp_apply, toUpper_toLower, toUpper_toUpper]
    rw [this]

/-! ## Grid lemmas -/

theorem setG_apply (s : Grid α) (r c : Nat) (v : α) (r' c' : Nat) :
    setG s r c v r' c' = if r' = r ∧ c' = c then v else s r' c' := rfl

theorem foldG_row_apply (cs : List Nat) (hcs : cs.Nodup) (g : α → Nat → Nat → α)
    (s : Grid α) (r : Nat) (r' c' : Nat) :
    (cs.foldl (fun s c => setG s r c (g (s r c) r c)) s) r' c' =
      if r' = r ∧ c' ∈ cs then g (s r' c') r' c' else s r' c' := by
  induction cs generalizing s with
  | nil => simp
  | cons c0 cs ih =>
    rw [List.foldl_cons]
    rcases List.nodup_cons.mp hcs with ⟨hc0, hnd⟩
    rw [ih hnd]
    by_cases hmem : r' = r ∧ c' ∈ cs
    · have hne : c' ≠ c0 := fun he => hc0 (he ▸ hmem.2)
      rw [if_pos hmem, if_pos ⟨hmem.1, List.mem_cons_of_mem c0 hmem.2⟩,
        setG_apply, if_neg (fun hx => hne hx.2)]
    · rw [if_neg hmem, setG_apply]
      by_cases hhd : r' = r ∧ c' = c0
      · rw [if_pos hhd, if_pos ⟨hhd.1, by simp [hhd.2]⟩, hhd.1, hhd.2]
      · rw [if_neg hhd, if_neg]
        intro hx
        rcases List.mem_cons.mp hx.2 with he | hm
        · exact hhd ⟨hx.1, he⟩
        · exact hmem ⟨hx.1, hm⟩

theorem foldG_apply (rs cs : List Nat) (hrs : rs.Nodup) (hcs : cs.Nodup)
    (g : α → Nat → Nat → α) (s : Grid α) (r' c' : Nat) :
    foldG rs cs g s r' c' =
      if r' ∈ rs ∧ c' ∈ cs then g (s r' c') r' c' else s r' c' := by
  induction rs generalizing s with
  | nil => simp [foldG]
  | cons r0 rs ih =>
    unfold foldG
    rw [List.foldl_cons]
    rcases List.nodup_cons.mp hrs with ⟨hr0, hnd⟩
    have := ih hnd (cs.foldl (fun s c => setG s r0 c (g (s r0 c) r0 c)) s)
    unfold foldG at this
    rw [this]
    by_cases hmem : r' ∈ rs ∧ c' ∈ cs
    · have hne : r' ≠ r0 := fun he => hr0 (he ▸ hmem.1)
      rw [if_pos hmem, if_pos ⟨List.mem_cons_of_mem r0 hmem.1, hmem.2⟩,
        foldG_row_apply cs hcs, if_neg (fun hx => hne hx.1)]
    · rw [if_neg hmem, foldG_row_apply cs hcs]
      by_cases hhd : r' = r0 ∧ c' ∈ cs
      · rw [if_pos hhd, if_pos ⟨by simp [hhd.1], hhd.2⟩, hhd.1]
      · rw [if_neg hhd, if_neg]
        intro hx
        rcases List.mem_cons.mp hx.1 with he | hm
        · exact hhd ⟨he, hx.2⟩
        · exact hmem ⟨hm, hx.2⟩

/-! ## `pySplit` / `collapseRuns` lemmas -/

theorem pySplit_cons_space {c : Char} (hc : isPySpace c = true) (s : Str) :
    pySplit (c :: s) = pySplit s := by
  cases s with
  | nil => simp [pySplit, hc]
  | cons d t => simp [pySplit, hc]

theorem pySplit_cons_ne_nil {c : Char} (hc : isPySpace c = false) (s : Str) :
    pySplit (c :: s) ≠ [] := by
  cases s with
  | nil => simp [pySplit, hc]
  | cons d t =>
    unfold pySplit
    rw [if_neg (by simp [hc])]
    by_cases hd : isPySpace d = true
    · rw [if_pos hd]
      simp
    · rw [if_neg hd]
      cases h : pySplit (d :: t) <;> simp

theorem pySplit_words {s : Str} : ∀ w ∈ pySplit s, w ≠ [] ∧ ∀ c ∈ w, isPySpace c = false := by
  induction s using pySplit.induct with
  | case1 => simp [pySplit]
  | case2 c hc => simp [pySplit, hc]
  | case3 c hc =>
    simp only [pySplit, if_neg hc, List.mem_singleton]
    intro w hw
    subst hw
    exact ⟨by simp, by simpa using Bool.of_not_eq_true hc⟩
  | case4 c d rest hc ih =>
    intro w hw
    rw [pySplit_cons_space (by simpa using hc)] at hw
    exact ih w hw
  | case5 c d rest hc hd ih =>
    intro w hw
    unfold pySplit at hw
    rw [if_neg hc, if_pos hd] at hw
    rcases List.mem_cons.mp hw with he | hm
    · subst he
      exact ⟨by simp, by simpa using Bool.of_not_eq_true hc⟩
    · exact ih w hm
  | case6 c d rest hc hd hP ih =>
    exact absurd hP (pySplit_cons_ne_nil (Bool.of_not_eq_true hd) rest)
  | case7 c d rest hc hd w0 ws0 hP ih =>
    intro w hw
    unfold pySplit at hw
    rw [if_neg hc, if_neg hd, hP] at hw
    rcases List.mem_cons.mp hw with he | hm
    · subst he
      have hw0 := ih w0 (by rw [hP]; exact List.mem_cons_self _ _)
      refine ⟨by simp, ?_⟩
      intro x hx
      rcases List.mem_cons.mp hx with hxe | hxm
      · subst hxe
        exact Bool.of_not_eq_true hc
      · exact hw0.2 x hxm
    · exact ih w (by rw [hP]; exact List.mem_cons_of_mem w0 hm)

theorem pySplit_eq_nil_all_space {s : Str} (h : pySplit s = []) :
    ∀ c ∈ s, isPySpace c = true := by
  induction s using pySplit.induct with
  | case1 => simp
  | case2 c hc => simp [hc]
  | case3 c hc => simp [pySplit, if_neg hc] at h
  | case4 c d rest hc ih =>
    rw [pySplit_cons_space (by simpa using hc)] at h
    intro x hx
    rcases List.mem_cons.mp hx with he | hm
    · subst he
      simpa using hc
    · exact ih h x hm
  | case5 c d rest hc hd ih =>
    unfold pySplit at h
    rw [if_neg hc, if_pos hd] at h
    simp at h
  | case6 c d rest hc hd hP ih =>
    exact absurd hP (pySplit_cons_ne_nil (Bool.of_not_eq_true hd) rest)
  | case7 c d rest hc hd w0 ws0 hP ih =>
    unfold pySplit at h
    rw [if_neg hc, if_neg hd, hP] at h
    simp at h

theorem joinSpace_cons_cons (x : Char) (wt : Str) (ws : List Str) :
    joinSpace ((x :: wt) :: ws) = x :: joinSpace (wt :: ws) := by
  cases ws <;> rfl

theorem lastIsSpace_cons_cons (c d : Char) (rest : Str) :
    lastIsSpace (c :: d :: rest) = lastIsSpace (d :: rest) := by
  unfold lastIsSpace
  rw [List.getLast?_cons_cons]

theorem lastIsSpace_of_all {s : Str} (hne : s ≠ [])
    (h : ∀ c ∈ s, isPySpace c = true) : lastIsSpace s = true := by
  unfold lastIsSpace
  cases hL : s.getLast? with
  | none => exact absurd (List.getLast?_eq_none_iff.mp hL) hne
  | some x => exact h x (List.mem_of_getLast?_eq_some hL)

theorem collapseRuns_eq (s : Str) :
    collapseRuns s = leadWs s ++ joinSpace (pySplit s) ++ trailWs s := by
  induction s using pySplit.induct with
  | case1 => simp [collapseRuns, leadWs, trailWs, pySplit, joinSpace, lastIsSpace]
  | case2 c hc => simp [collapseRuns, leadWs, trailWs, pySplit, joinSpace, hc, lastIsSpace]
  | case3 c hc =>
    simp [collapseRuns, leadWs, trailWs, pySplit, joinSpace, if_neg hc, lastIsSpace,
      Bool.of_not_eq_true hc]
  | case4 c d rest hc ih =>
    have hc' : isPySpace c = true := by simpa using hc
    have hsplit : pySplit (c :: d :: rest) = pySplit (d :: rest) := pySplit_cons_space hc' _
    have htrail : trailWs (c :: d :: rest) = trailWs (d :: rest) := by
      unfold trailWs
      rw [lastIsSpace_cons_cons, hsplit]
    have hlead : leadWs (c :: d :: rest) = [' '] := by simp [leadWs, hc']
    rw [hsplit, htrail, hlead]
    by_cases hd : isPySpace d = true
    · have : collapseRuns (c :: d :: rest) = collapseRuns (d :: rest) := by
        rw [collapseRuns]
        rw [if_pos hc', if_pos hd]
      rw [this, ih]
      simp [leadWs, hd]
    · have : collapseRuns (c :: d :: rest) = ' ' :: collapseRuns (d :: rest) := by
        rw [collapseRuns]
        rw [if_pos hc', if_neg hd]
      rw [this, ih]
      simp [leadWs, hd]
  | case5 c d rest hc hd ih =>
    have hc' : isPySpace c = false := Bool.of_not_eq_true hc
    have hCR : collapseRuns (c :: d :: rest) = c :: collapseRuns (d :: rest) := by
      rw [collapseRuns]
      rw [if_neg hc]
    have hsplit : pySplit (c :: d :: rest) = [c] :: pySplit (d :: rest) := by
      rw [pySplit]
      rw [if_neg hc, if_pos hd]
    have hlast : lastIsSpace (c :: d :: rest) = lastIsSpace (d :: rest) :=
      lastIsSpace_cons_cons c d rest
    rw [hCR, ih, hsplit]
    cases hP : pySplit (d :: rest) with
    | nil =>
      have hall : ∀ x ∈ d :: rest, isPySpace x = true := pySplit_eq_nil_all_space hP
      have hlastT : lastIsSpace (d :: rest) = true := lastIsSpace_of_all (by simp) hall
      have hT : trailWs (d :: rest) = [] := by
        unfold trailWs
        rw [if_neg]
        simp [hP]
      have hT2 : trailWs (c :: d :: rest) = [' '] := by
        unfold trailWs
        rw [if_pos]
        constructor
        · rw [hlast]
          exact hlastT
        · rw [hsplit, hP]
          simp
      rw [hT, hT2]
      simp [leadWs, hd, hc', joinSpace]
    | cons w ws =>
      have hT2 : trailWs (c :: d :: rest) = trailWs (d :: rest) := by
        unfold trailWs
        rw [hlast, hsplit, hP]
        simp
      rw [hT2]
      simp [leadWs, hd, hc', joinSpace]
  | case6 c d rest hc hd hP ih =>
    exact absurd hP (pySplit_cons_ne_nil (Bool.of_not_eq_true hd) rest)
  | case7 c d rest hc hd w0 ws0 hP ih =>
    have hc' : isPySpace c = false := Bool.of_not_eq_true hc
    have hd' : isPySpace d = false := Bool.of_not_eq_true hd
    have hCR : collapseRuns (c :: d :: rest) = c :: collapseRuns (d :: rest) := by
      rw [collapseRuns]
      rw [if_neg hc]
    have hsplit : pySplit (c :: d :: rest) = (c :: w0) :: ws0 := by
      rw [pySplit]
      rw [if_neg hc, if_neg hd, hP]
    have hT2 : trailWs (c :: d :: rest) = trailWs (d :: rest) := by
      unfold trailWs
      rw [lastIsSpace_cons_cons, hsplit, hP]
      simp
    rw [hCR, ih, hsplit, hT2, hP, joinSpace_cons_cons]
    simp [leadWs, hd', hc']

theorem pySplit_cons_cons (c d : Char) (rest : Str) :
    pySplit (c :: d :: rest) =
      if isPySpace c = true then pySplit (d :: rest)
      else if isPySpace d = true then [c] :: pySplit (d :: rest)
      else
        match pySplit (d :: rest) with
        | [] => [[c]]
        | w :: ws => (c :: w) :: ws := by
  rw [pySplit]

theorem pySplit_map (f : Char → Char) (hsp : ∀ c, isPySpace (f c) = isPySpace c)
    (hfix : ∀ c, isPySpace c = false → f c = c) (s : Str) :
    pySplit (s.map f) = pySplit s := by
  induction s using pySplit.induct with
  | case1 => rfl
  | case2 c hc =>
    have hc' : isPySpace c = true := by simpa using hc
    simp [pySplit, hsp c, hc']
  | case3 c hc =>
    have hc' : isPySpace c = false := Bool.of_not_eq_true hc
    simp [pySplit, hsp c, hc', hfix c hc']
  | case4 c d rest hc ih =>
    have hc' : isPySpace c = true := by simpa using hc
    simp only [List.map_cons] at ih ⊢
    rw [pySplit_cons_cons, pySplit_cons_cons, hsp c, if_pos hc', if_pos hc']
    exact ih
  | case5 c d rest hc hd ih =>
    have hc' : isPySpace c = false := Bool.of_not_eq_true hc
    simp only [List.map_cons] at ih ⊢
    rw [pySplit_cons_cons, pySplit_cons_cons, hsp c, hsp d,
      if_neg hc, if_neg hc, if_pos hd, if_pos hd, hfix c hc', ih]
  | case6 c d rest hc hd hP ih =>
    exact absurd hP (pySplit_cons_ne_nil (Bool.of_not_eq_true hd) rest)
  | case7 c d rest hc hd w0 ws0 hP ih =>
    have hc' : isPySpace c = false := Bool.of_not_eq_true hc
    simp only [List.map_cons] at ih ⊢
    rw [pySplit_cons_cons, pySplit_cons_cons, hsp c, hsp d,
      if_neg hc, if_neg hc, if_neg hd, if_neg hd, hfix c hc', ih]

theorem dropWhile_append_of_all {p : Char → Bool} {l1 l2 : Str}
    (h : ∀ x ∈ l1, p x = true) : (l1 ++ l2).dropWhile p = l2.dropWhile p := by
  induction l1 with
  | nil => rfl
  | cons a t ih =>
    rw [List.cons_append, List.dropWhile_cons]
    rw [h a (List.mem_cons_self a t)]
    simp only [if_true]
    exact ih fun x hx => h x (List.mem_cons_of_mem a hx)

theorem leadWs_all_space (s : Str) : ∀ x ∈ leadWs s, isPySpace x = true := by
  cases s with
  | nil => simp [leadWs]
  | cons c t =>
    by_cases hc : isPySpace c = true
    · simp only [leadWs, hc, if_true]
      intro x hx
      rw [List.mem_singleton.mp hx]
      decide
    · simp [leadWs, hc]

theorem trailWs_all_space (s : Str) : ∀ x ∈ trailWs s, isPySpace x = true := by
  unfold trailWs
  split
  · intro x hx
    rw [List.mem_singleton.mp hx]
    decide
  · simp

theorem leadWs_cases (s : Str) : leadWs s = [] ∨ leadWs s = [' '] := by
  cases s with
  | nil => exact Or.inl rfl
  | cons c t =>
    by_cases hc : isPySpace c = true
    · exact Or.inr (by simp [leadWs, hc])
    · exact Or.inl (by simp [leadWs, hc])

theorem joinSpace_ne_nil_head {w : Str} {ws : List Str} (hne : w ≠ []) :
    ∃ x t, joinSpace (w :: ws) = x :: t ∧ x ∈ w := by
  cases w with
  | nil => exact absurd rfl hne
  | cons x wt =>
    rw [joinSpace_cons_cons]
    exact ⟨x, joinSpace (wt :: ws), rfl, List.mem_cons_self _ _⟩

theorem joinSpace_reverse_head {w : Str} {ws : List Str}
    (hall : ∀ u ∈ w :: ws, u ≠ [] ∧ ∀ c ∈ u, isPySpace c = false) :
    ∃ x t, (joinSpace (w :: ws)).reverse = x :: t ∧ isPySpace x = false := by
  induction ws generalizing w with
  | nil =>
    obtain ⟨hne, hch⟩ := hall w (List.mem_cons_self _ _)
    cases hrev : w.reverse with
    | nil => exact absurd (by simpa using hrev) hne
    | cons x t =>
      refine ⟨x, t, by simp [joinSpace, hrev], hch x ?_⟩
      rw [← List.mem_reverse, hrev]
      exact List.mem_cons_self _ _
  | cons v vs ih =>
    obtain ⟨x, t, hxt, hx⟩ := ih fun u hu => hall u (List.mem_cons_of_mem w hu)
    refine ⟨x, t ++ [' '] ++ w.reverse, ?_, hx⟩
    have hJ : joinSpace (w :: v :: vs) = w ++ ' ' :: joinSpace (v :: vs) := rfl
    rw [hJ, List.reverse_append, List.reverse_cons, hxt]
    simp

theorem pyStrip_collapseRuns (s : Str) :
    pyStrip (collapseRuns s) = joinSpace (pySplit s) := by
  rw [collapseRuns_eq]
  cases hP : pySplit s with
  | nil =>
    have hT : trailWs s = [] := by
      unfold trailWs
      rw [if_neg]
      simp [hP]
    rw [hT]
    rcases leadWs_cases s with h | h <;> rw [h] <;> decide
  | cons w ws =>
    have hwords : ∀ u ∈ w :: ws, u ≠ [] ∧ ∀ c ∈ u, isPySpace c = false :=
      fun u hu => pySplit_words u (hP ▸ hu)
    obtain ⟨xh, th, hhead, hmem⟩ :=
      @joinSpace_ne_nil_head w ws ((hwords w (List.mem_cons_self _ _)).1)
    have hxh : isPySpace xh = false := (hwords w (List.mem_cons_self _ _)).2 xh hmem
    obtain ⟨xr, tr, hrev, hxr⟩ := joinSpace_reverse_head hwords
    have h1 : (leadWs s ++ (joinSpace (w :: ws) ++ trailWs s)).dropWhile isPySpace =
        joinSpace (w :: ws) ++ trailWs s := by
      rw [dropWhile_append_of_all (leadWs_all_space s), hhead, List.cons_append,
        List.dropWhile_cons, hxh]
      simp
    have h2 : (joinSpace (w :: ws) ++ trailWs s).reverse.dropWhile isPySpace =
        (joinSpace (w :: ws)).reverse := by
      rw [List.reverse_append,
        dropWhile_append_of_all (fun x hx =>
          trailWs_all_space s x (List.mem_reverse.mp hx)),
        hrev, List.dropWhile_cons, hxr]
      simp
    unfold pyStrip
    rw [List.append_assoc, h1, h2, List.reverse_reverse]

theorem normalizeCellText_eq_strip_collapse (s : Str) :
    normalizeCellText s = pyStrip (collapseRuns s) := by
  unfold normalizeCellText replaceNbsp
  rw [pySplit_map _ ?hsp ?hfix, pyStrip_collapseRuns]
  case hsp =>
    intro c
    by_cases hc : c = nbsp
    · subst hc
      decide
    · rw [if_neg hc]
  case hfix =>
    intro c hc
    by_cases hn : c = nbsp
    · subst hn
      exact absurd hc (by decide)
    · rw [if_neg hn]

/-! ## Export-pipeline lemmas -/

theorem regionData_length (ws : SheetData) (r1 r2 c1 c2 : Nat) :
    (regionData ws r1 r2 c1 c2).length = r2 + 1 - r1 := by
  simp [regionData]

theorem regionData_getD (ws : SheetData) (r1 r2 c1 c2 : Nat) {i : Nat}
    (hi : i < r2 + 1 - r1) :
    (regionData ws r1 r2 c1 c2).getD i [] =
      (List.range' c1 (c2 + 1 - c1)).map fun c => pyStr (ws (r1 + i) c) := by
  unfold regionData
  rw [List.getD_eq_getElem?_getD, List.getElem?_eq_getElem (by simpa using hi)]
  simp

theorem regionData_row_length (ws : SheetData) (r1 r2 c1 c2 : Nat) {i : Nat}
    (hi : i < r2 + 1 - r1) :
    ((regionData ws r1 r2 c1 c2).getD i []).length = c2 + 1 - c1 := by
  rw [regionData_getD ws r1 r2 c1 c2 hi]
  simp

theorem regionData_cell (ws : SheetData) (r1 r2 c1 c2 : Nat) {i j : Nat}
    (hi : i < r2 + 1 - r1) (hj : j < c2 + 1 - c1) :
    ((regionData ws r1 r2 c1 c2).getD i []).getD j [] = pyStr (ws (r1 + i) (c1 + j)) := by
  rw [regionData_getD ws r1 r2 c1 c2 hi, List.getD_eq_getElem?_getD,
    List.getElem?_eq_getElem (by simpa using hj)]
  simp [List.getElem_range'_1]

theorem fill_text (nrows ncols : Nat) (data : List (List Str)) (i j : Nat) :
    ((add_table nrows ncols).fill data).text i j =
      if i < nrows ∧ j < ncols then (data.getD i []).getD j [] else [] := by
  unfold DocxTable.fill add_table
  simp only
  rw [foldG_apply _ _ (List.nodup_range _) (List.nodup_range _)]
  simp [List.mem_range]

theorem toRows_fill (nrows ncols : Nat) (data : List (List Str)) :
    ((add_table nrows ncols).fill data).toRows =
      (List.range nrows).map fun i =>
        (List.range ncols).map fun j => (data.getD i []).getD j [] := by
  unfold DocxTable.toRows
  refine List.map_congr_left fun i hi => ?_
  refine List.map_congr_left fun j hj => ?_
  have hfill := fill_text nrows ncols data i j
  simp only [DocxTable.fill, add_table] at hfill ⊢
  rw [hfill, if_pos ⟨List.mem_range.mp hi, List.mem_range.mp hj⟩]

theorem mkDocument_rows (data : List (List Str)) (nrows ncols : Nat) :
    mkDocument data nrows ncols =
      ⟨[(List.range nrows).map fun i =>
          (List.range ncols).map fun j => (data.getD i []).getD j []]⟩ := by
  unfold mkDocument
  rw [toRows_fill]

/-! ## Import-pipeline lemmas -/

theorem foldl_max_const {l : List Nat} {n : Nat} (h : ∀ x ∈ l, x = n) :
    l.foldl max n = n := by
  induction l with
  | nil => rfl
  | cons a t ih =>
    rw [List.foldl_cons, h a (List.mem_cons_self a t), Nat.max_self]
    exact ih fun x hx => h x (List.mem_cons_of_mem a hx)

theorem maxRowLen_eq_none_iff (g : List (List Str)) :
    maxRowLen g = none ↔ g = [] := by
  cases g <;> simp [maxRowLen]

theorem maxRowLen_uniform {g : List (List Str)} {n : Nat} (hne : g ≠ [])
    (h : ∀ r ∈ g, r.length = n) : maxRowLen g = some n := by
  cases g with
  | nil => exact absurd rfl hne
  | cons r rs =>
    rw [maxRowLen]
    rw [h r (List.mem_cons_self r rs)]
    rw [foldl_max_const]
    intro x hx
    obtain ⟨u, hu, hux⟩ := List.mem_map.mp hx
    rw [← hux]
    exact h u (List.mem_cons_of_mem r hu)

theorem word2excel_write_apply (table_data : List (List Str)) (cols_word r1 r2 c1 c2 : Nat)
    (ws0 : XSheet) (r c : Nat) :
    word2excel_write table_data cols_word r1 r2 c1 c2 ws0 r c =
      (let row := table_data.getD (r - r1) []
       let val := if c - c1 < row.length then row.getD (c - c1) [] else []
       let inner :=
         if (r1 ≤ r ∧ r < r1 + min table_data.length (r2 + 1 - r1)) ∧
             c1 ≤ c ∧ c < c1 + min cols_word (c2 + 1 - c1) then
           { ws0 r c with
             value := some val, alignment := some xAlign, border := some border_style }
         else ws0 r c
       if (r1 ≤ r ∧ r < r1 + (r2 + 1 - r1)) ∧ c1 ≤ c ∧ c < c1 + (c2 + 1 - c1) then
         borderFixCell inner
       else inner) := by
  unfold word2excel_write
  simp only
  rw [foldG_apply _ _ (List.nodup_range' _ _) (List.nodup_range' _ _),
    foldG_apply _ _ (List.nodup_range' _ _) (List.nodup_range' _ _)]
  simp only [List.mem_range'_1]

theorem word2excel_main_ok (args : W2EArgs) (w : W2EWorld) {c1 c2 : Nat}
    {td : List (List Str)} {cw : Nat}
    (hex : w.wordExists = true)
    (h1 : parse_col_arg args.col_start = some c1)
    (h2 : parse_col_arg args.col_end = some c2)
    (hr1 : 1 ≤ args.row_start) (hr2 : args.row_start ≤ args.row_end)
    (hc12 : c1 ≤ c2)
    (hread : read_table_from_word w.docOpen args.table_index = Except.ok td)
    (hmax : maxRowLen td = some cw) :
    word2excel_main args w =
      .ok (word2excel_write td cw args.row_start.toNat args.row_end.toNat c1 c2
        (w2eSelect (ensure_workbook w.excelOutExists w.loadResult) args.sheet)) := by
  have hpos : 1 ≤ c1 := parse_col_arg_pos h1
  have hcond : ¬(args.row_start < 1 ∨ args.row_end < args.row_start ∨ c1 < 1 ∨ c2 < c1) := by
    omega
  simp [word2excel_main, hex, h1, h2, hread, hmax, hcond]
  omega

theorem excel2word_main_ok (args : E2WArgs) (w : E2WWorld) {c1 c2 : Nat}
    {wb : E2WWorkbook} {ws : SheetData}
    (hex : w.excelExists = true)
    (h1 : parse_col_arg args.col_start = some c1)
    (h2 : parse_col_arg args.col_end = some c2)
    (hr1 : 1 ≤ args.row_start) (hr2 : args.row_start ≤ args.row_end)
    (hc12 : c1 ≤ c2)
    (hload : w.loadResult = some wb)
    (hsel : e2wSelect wb args.sheet = some ws) :
    excel2word_main args w =
      .ok (mkDocument (regionData ws args.row_start.toNat args.row_end.toNat c1 c2)
        (args.row_end.toNat + 1 - args.row_start.toNat) (c2 + 1 - c1)) := by
  have hpos : 1 ≤ c1 := parse_col_arg_pos h1
  have hcond1 : ¬(args.row_start < 1 ∨ args.row_end < 1) := by omega
  have hcond2 : ¬(c2 < c1 ∨ args.row_end < args.row_start) := by omega
  simp [excel2word_main, hex, h1, h2, hload, hsel, hcond1, hcond2]

/-! ## Remaining helpers -/

theorem pyStrip_of_no_space {s : Str} (h : ∀ c ∈ s, isPySpace c = false) :
    pyStrip s = s := by
  have h1 : s.dropWhile isPySpace = s := by
    cases s with
    | nil => rfl
    | cons a t =>
      rw [List.dropWhile_cons, h a (List.mem_cons_self a t)]
      simp
  have h2 : s.reverse.dropWhile isPySpace = s.reverse := by
    cases hr : s.reverse with
    | nil => rfl
    | cons a t =>
      have ha : a ∈ s := by
        rw [← List.mem_reverse, hr]
        exact List.mem_cons_self a t
      rw [List.dropWhile_cons, h a ha]
      simp
  rw [pyStrip, h1, h2, List.reverse_reverse]

theorem isAsciiDigit_not_space {c : Char} (h : isAsciiDigit c = true) :
    isPySpace c = false := by
  have hd := (isAsciiDigit_iff c).mp h
  rcases hs : isPySpace c with h2 | h2
  · rfl
  · have := (isPySpace_iff c).mp hs
    omega

theorem borderFixCell_value (cl : XCell) : (borderFixCell cl).value = cl.value := by
  unfold borderFixCell
  cases cl.border with
  | none => rfl
  | some b =>
    by_cases hb : b.left = none
    · simp [hb]
    · simp [hb]

theorem borderFixCell_alignment (cl : XCell) :
    (borderFixCell cl).alignment = some xAlign := by
  unfold borderFixCell
  cases cl.border with
  | none => rfl
  | some b =>
    by_cases hb : b.left = none
    · simp [hb]
    · simp [hb]

theorem borderFixCell_skip (cl : XCell) (b : XBorder) (hb : cl.border = some b)
    (hleft : b.left ≠ none) : (borderFixCell cl).border = cl.border := by
  unfold borderFixCell
  rw [hb]
  simp [hleft, hb]

theorem borderFixCell_unset (cl : XCell)
    (hb : cl.border = none ∨ ∃ b, cl.border = some b ∧ b.left = none) :
    (borderFixCell cl).border = some border_style := by
  unfold borderFixCell
  rcases hb with hb | ⟨b, hb, hbl⟩
  · rw [hb]
  · rw [hb]
    simp [hbl]

theorem borderFixCell_written (cl : XCell) (hb : cl.border = some border_style) :
    (borderFixCell cl).border = some border_style := by
  have hleft : border_style.left ≠ none := by
    simp [border_style]
  rw [borderFixCell_skip cl border_style hb hleft, hb]

theorem getD_range_map {α : Type} (f : Nat → α) {n i : Nat} (hi : i < n) (d : α) :
    ((List.range n).map f).getD i d = f i := by
  rw [List.getD_eq_getElem?_getD, List.getElem?_eq_getElem (by simpa using hi)]
  simp

theorem getD_map_of_lt {α β : Type} {l : List α} (f : α → β) {i : Nat}
    (hi : i < l.length) (d : α) (d' : β) :
    (l.map f).getD i d' = f (l.getD i d) := by
  rw [List.getD_eq_getElem?_getD, List.getElem?_eq_getElem (by simpa using hi),
    List.getElem_map, List.getD_eq_getElem?_getD, List.getElem?_eq_getElem hi]
  simp

theorem word2excel_main_readErr (args : W2EArgs) (w : W2EWorld) {c1 c2 : Nat}
    (e : ReadErr)
    (hex : w.wordExists = true)
    (h1 : parse_col_arg args.col_start = some c1)
    (h2 : parse_col_arg args.col_end = some c2)
    (hr1 : 1 ≤ args.row_start) (hr2 : args.row_start ≤ args.row_end)
    (hc12 : c1 ≤ c2)
    (hread : read_table_from_word w.docOpen args.table_index = .error e) :
    word2excel_main args w = .error (.readWord e) := by
  have hpos : 1 ≤ c1 := parse_col_arg_pos h1
  have hcond : ¬(args.row_start < 1 ∨ args.row_end < args.row_start ∨ c1 < 1 ∨ c2 < c1) := by
    omega
  simp [word2excel_main, hex, h1, h2, hread, hcond]
  omega

theorem word2excel_main_uncaught (args : W2EArgs) (w : W2EWorld) {c1 c2 : Nat}
    (hex : w.wordExists = true)
    (h1 : parse_col_arg args.col_start = some c1)
    (h2 : parse_col_arg args.col_end = some c2)
    (hr1 : 1 ≤ args.row_start) (hr2 : args.row_start ≤ args.row_end)
    (hc12 : c1 ≤ c2)
    (hread : read_table_from_word w.docOpen args.table_index = .ok []) :
    word2excel_main args w = .error .uncaughtMax := by
  have hpos : 1 ≤ c1 := parse_col_arg_pos h1
  have hcond : ¬(args.row_start < 1 ∨ args.row_end < args.row_start ∨ c1 < 1 ∨ c2 < c1) := by
    omega
  simp [word2excel_main, hex, h1, h2, hread, hcond, maxRowLen]
  omega

/-! ## Claims -/

/-- C2: `parse_col_arg` maps every all-digit token to its integer value
when that value is at least 1 and fails when the parsed value is smaller;
every non-digit token is decoded, case-insensitively, as a base-26
spreadsheet column letter sequence, with normalize "A" = 1,
normalize "Z" = 26, normalize "AA" = 27, and normalization of the
lowercased form of a token agreeing with that of its uppercased form. -/
theorem claim_C2_parse_col_arg :
    (∀ x : Str, pyIsDigit x = true →
      parse_col_arg x = if 1 ≤ digitsToNat x then some (digitsToNat x) else none) ∧
    (∀ x : Str, pyIsDigit (pyStrip x) = false →
      parse_col_arg x = column_index_from_string ((pyStrip x).map Char.toUpper)) ∧
    parse_col_arg ('A' :: []) = some 1 ∧
    parse_col_arg ('Z' :: []) = some 26 ∧
    parse_col_arg ('A' :: 'A' :: []) = some 27 ∧
    (∀ x : Str, parse_col_arg (x.map Char.toLower) = parse_col_arg (x.map Char.toUpper)) := by
  refine ⟨?_, ?_, by decide, by decide, by decide, parse_col_arg_lower_upper⟩
  · intro x hx
    have hstrip : pyStrip x = x := by
      apply pyStrip_of_no_space
      intro c hc
      apply isAsciiDigit_not_space
      unfold pyIsDigit at hx
      simp only [Bool.and_eq_true, List.all_eq_true] at hx
      exact hx.2 c hc
    unfold parse_col_arg
    simp only [hstrip, hx, if_true]
    by_cases hv : digitsToNat x < 1
    · rw [if_pos hv, if_neg (by omega)]
    · rw [if_neg hv, if_pos (by omega)]
  · intro x hx
    unfold parse_col_arg
    simp only
    rw [if_neg (by simp [hx])]

/-- C2 witness: the digit branch at "07" and the letter branch at "x",
through `claim_C2_parse_col_arg` itself. -/
theorem claim_C2_witness :
    parse_col_arg ('0' :: '7' :: []) = some 7 ∧
    parse_col_arg ('0' :: []) = none ∧
    parse_col_arg ('x' :: []) = some 24 := by
  refine ⟨?_, ?_, ?_⟩
  · rw [claim_C2_parse_col_arg.1 ('0' :: '7' :: []) (by decide)]
    decide
  · rw [claim_C2_parse_col_arg.1 ('0' :: []) (by decide)]
    decide
  · rw [claim_C2_parse_col_arg.2.1 ('x' :: []) (by decide)]
    decide

/-- C3: in either program, an invocation whose normalized range violates
row-start ≤ row-end, col-start ≤ col-end, or positivity of any of the four
values terminates with a non-zero exit status (modelled by an `.error`
result) and writes no destination file. -/
theorem claim_C3_invalid_range :
    (∀ (a : E2WArgs) (w : E2WWorld) (c1 c2 : Nat),
      parse_col_arg a.col_start = some c1 →
      parse_col_arg a.col_end = some c2 →
      (a.row_end < a.row_start ∨ c2 < c1 ∨ a.row_start < 1 ∨ a.row_end < 1 ∨
        c1 < 1 ∨ c2 < 1) →
      ∃ e, excel2word_main a w = .error e) ∧
    (∀ (a : W2EArgs) (w : W2EWorld) (c1 c2 : Nat),
      parse_col_arg a.col_start = some c1 →
      parse_col_arg a.col_end = some c2 →
      (a.row_end < a.row_start ∨ c2 < c1 ∨ a.row_start < 1 ∨ a.row_end < 1 ∨
        c1 < 1 ∨ c2 < 1) →
      ∃ e, word2excel_main a w = .error e) := by
  constructor
  · intro a w c1 c2 h1 h2 hviol
    have hc1 := parse_col_arg_pos h1
    have hc2 := parse_col_arg_pos h2
    by_cases hex : w.excelExists = true
    · by_cases hrow : a.row_start < 1 ∨ a.row_end < 1
      · refine ⟨.invalidRow, ?_⟩
        simp [excel2word_main, hex, h1, h2]
        intros
        omega
      · have hcond : c2 < c1 ∨ a.row_end < a.row_start := by omega
        refine ⟨.invalidRange, ?_⟩
        simp [excel2word_main, hex, h1, h2]
        rw [if_neg hrow, if_pos hcond]
    · have hex' : w.excelExists = false := by simpa using hex
      exact ⟨.fileNotFound, by simp [excel2word_main, hex']⟩
  · intro a w c1 c2 h1 h2 hviol
    have hc1 := parse_col_arg_pos h1
    have hc2 := parse_col_arg_pos h2
    by_cases hex : w.wordExists = true
    · have hcond : a.row_start < 1 ∨ a.row_end < a.row_start ∨ c1 < 1 ∨ c2 < c1 := by
        omega
      refine ⟨.invalidRange, ?_⟩
      simp [word2excel_main, hex, h1, h2]
      intros
      omega
    · have hex' : w.wordExists = false := by simpa using hex
      exact ⟨.fileNotFound, by simp [word2excel_main, hex']⟩

/-- C3 witness: both programs reject the range rows 5..2, columns A..B. -/
theorem claim_C3_witness :
    (∃ e, excel2word_main ⟨5, 2, 'A' :: [], 'B' :: [], none⟩ ⟨true, none⟩ = .error e) ∧
    (∃ e, word2excel_main ⟨0, 5, 2, 'A' :: [], 'B' :: [], none⟩
      ⟨true, some docC5, false, none⟩ = .error e) :=
  ⟨claim_C3_invalid_range.1 _ _ 1 2 (by decide) (by decide) (by left; decide),
   claim_C3_invalid_range.2 _ _ 1 2 (by decide) (by decide) (by left; decide)⟩

/-- C4: for every valid range and source sheet, the export run produces a
document with a single table of exactly (r2−r1+1) × (c2−c1+1) cells whose
cell (i, j) is the textual rendering of source cell (r1+i, c1+j), with the
empty string for absent cells; in particular the spec's 3×2 scenario at
rows 2-4, columns C-D yields the table
[["a", "b"], ["c", ""], ["", ""]]. -/
theorem claim_C4_export_grid :
    (∀ (a : E2WArgs) (w : E2WWorld) (wb : E2WWorkbook) (ws : SheetData)
        (r1 r2 c1 c2 : Nat),
      w.excelExists = true →
      parse_col_arg a.col_start = some c1 →
      parse_col_arg a.col_end = some c2 →
      a.row_start = (r1 : Int) → a.row_end = (r2 : Int) →
      1 ≤ r1 → r1 ≤ r2 → c1 ≤ c2 →
      w.loadResult = some wb → e2wSelect wb a.sheet = some ws →
      ∃ rows : List (List Str),
        excel2word_main a w = .ok ⟨[rows]⟩ ∧
        rows.length = r2 + 1 - r1 ∧
        (∀ i, i < r2 + 1 - r1 → (rows.getD i []).length = c2 + 1 - c1) ∧
        (∀ i j, i < r2 + 1 - r1 → j < c2 + 1 - c1 →
          (rows.getD i []).getD j [] = pyStr (ws (r1 + i) (c1 + j)))) ∧
    (excel2word_main eArgsC4 eWorldC4).toOption =
      some ⟨[[['a' :: [], 'b' :: []], ['c' :: [], []], [[], []]]]⟩ := by
  constructor
  · intro a w wb ws r1 r2 c1 c2 hex h1 h2 hra hrb hr1 hr12 hc12 hload hsel
    have hok := excel2word_main_ok a w hex h1 h2
      (by rw [hra]; exact_mod_cast hr1) (by rw [hra, hrb]; exact_mod_cast hr12)
      hc12 hload hsel
    rw [hra, hrb] at hok
    simp only [Int.toNat_natCast] at hok
    rw [mkDocument_rows] at hok
    refine ⟨_, hok, ?_, ?_, ?_⟩
    · simp
    · intro i hi
      rw [getD_range_map _ hi]
      simp
    · intro i j hi hj
      rw [getD_range_map _ hi, getD_range_map _ hj,
        regionData_cell ws r1 r2 c1 c2 hi hj]
  · decide

/-- C4 witness: `claim_C4_export_grid` instantiated at the concrete 3×2
scenario inputs. -/
theorem claim_C4_witness :
    ∃ rows : List (List Str),
      excel2word_main eArgsC4 eWorldC4 = .ok ⟨[rows]⟩ ∧
      rows.length = 3 ∧
      (∀ i, i < 3 → (rows.getD i []).length = 2) ∧
      (∀ i j, i < 3 → j < 2 →
        (rows.getD i []).getD j [] = pyStr (wsC4 (2 + i) (3 + j))) :=
  claim_C4_export_grid.1 eArgsC4 eWorldC4 e2wWbC4 wsC4 2 4 3 4 rfl (by decide)
    (by decide) rfl rfl (by decide) (by decide) (by decide) rfl rfl

/-- C5 counterexample: in the spec's irregular-table scenario (table
[["x","y","z"],["1","2"]] into rows 1-2, columns A-D) the claim's asserted
write of "" to column D does not happen: after the (successful) run the
cell (1, D) of the destination sheet holds no value at all, which differs
from holding the written value "". -/
theorem claim_C5_counterexample :
    ((word2excel_main wArgsC5 wWorldC5).toOption.map fun s => (s 1 4).value) =
      some none ∧
    (some (none : Option Str) ≠ some (some ([] : Str))) := by
  constructor
  · decide
  · decide

/-- C5 (amended): import writes exactly min(table rows, target rows) rows
and min(grid columns, target columns) columns of values starting at
(row-start, col-start), padding short source rows with empty strings up to
the copied column extent; target cells beyond the copied extent receive no
value (their previous value is kept) but still receive formatting; in the
irregular scenario the importer writes "x","y","z" to columns A-C of row 1
and "1","2","" to columns A-C of row 2, while column D keeps no value yet
is wrapped and thin-bordered. -/
theorem claim_C5_write_extent :
    (∀ (a : W2EArgs) (w : W2EWorld) (td : List (List Str)) (cw : Nat)
        (r1 r2 c1 c2 : Nat),
      w.wordExists = true →
      parse_col_arg a.col_start = some c1 →
      parse_col_arg a.col_end = some c2 →
      a.row_start = (r1 : Int) → a.row_end = (r2 : Int) →
      1 ≤ r1 → r1 ≤ r2 → c1 ≤ c2 →
      read_table_from_word w.docOpen a.table_index = .ok td →
      maxRowLen td = some cw →
      ∃ s, word2excel_main a w = .ok s ∧
        (∀ i j, i < min td.length (r2 + 1 - r1) → j < min cw (c2 + 1 - c1) →
          (s (r1 + i) (c1 + j)).value =
            some (if j < (td.getD i []).length then (td.getD i []).getD j [] else [])) ∧
        (∀ r c, r1 ≤ r → r ≤ r2 → c1 ≤ c → c ≤ c2 →
          (r1 + min td.length (r2 + 1 - r1) ≤ r ∨ c1 + min cw (c2 + 1 - c1) ≤ c) →
          (s r c).value =
            ((w2eSelect (ensure_workbook w.excelOutExists w.loadResult) a.sheet) r c).value ∧
          (s r c).alignment = some xAlign)) ∧
    ((word2excel_main wArgsC5 wWorldC5).toOption.map fun s => (s 1 1).value) =
      some (some ('x' :: [])) ∧
    ((word2excel_main wArgsC5 wWorldC5).toOption.map fun s => (s 1 2).value) =
      some (some ('y' :: [])) ∧
    ((word2excel_main wArgsC5 wWorldC5).toOption.map fun s => (s 1 3).value) =
      some (some ('z' :: [])) ∧
    ((word2excel_main wArgsC5 wWorldC5).toOption.map fun s => (s 1 4).value) =
      some none ∧
    ((word2excel_main wArgsC5 wWorldC5).toOption.map fun s => (s 2 1).value) =
      some (some ('1' :: [])) ∧
    ((word2excel_main wArgsC5 wWorldC5).toOption.map fun s => (s 2 2).value) =
      some (some ('2' :: [])) ∧
    ((word2excel_main wArgsC5 wWorldC5).toOption.map fun s => (s 2 3).value) =
      some (some []) ∧
    ((word2excel_main wArgsC5 wWorldC5).toOption.map fun s => (s 2 4).value) =
      some none ∧
    ((word2excel_main wArgsC5 wWorldC5).toOption.map fun s => (s 1 4).alignment) =
      some (some xAlign) ∧
    ((word2excel_main wArgsC5 wWorldC5).toOption.map fun s => (s 1 4).border) =
      some (some border_style) ∧
    ((word2excel_main wArgsC5 wWorldC5).toOption.map fun s => (s 2 4).border) =
      some (some border_style) := by
  refine ⟨?_, by decide, by decide, by decide, by decide, by decide, by decide,
    by decide, by decide, by decide, by decide, by decide⟩
  intro a w td cw r1 r2 c1 c2 hex h1 h2 hra hrb hr1 hr12 hc12 hread hmax
  have hok := word2excel_main_ok a w hex h1 h2
    (by rw [hra]; exact_mod_cast hr1) (by rw [hra, hrb]; exact_mod_cast hr12)
    hc12 hread hmax
  rw [hra, hrb] at hok
  simp only [Int.toNat_natCast] at hok
  refine ⟨_, hok, ?_, ?_⟩
  · intro i j hi hj
    rw [word2excel_write_apply]
    simp only
    rw [if_pos ⟨⟨by omega, by omega⟩, by omega, by omega⟩,
      if_pos ⟨⟨by omega, by omega⟩, by omega, by omega⟩]
    have hii : r1 + i - r1 = i := by omega
    have hjj : c1 + j - c1 = j := by omega
    rw [borderFixCell_value]
    simp only [hii, hjj]
  · intro r c hr1c hr2c hc1c hc2c hbeyond
    have hA1 : r1 + (r2 + 1 - r1) = r2 + 1 := by omega
    have hA2 : c1 + (c2 + 1 - c1) = c2 + 1 := by omega
    have hm1 : min td.length (r2 + 1 - r1) ≤ r2 + 1 - r1 := Nat.min_le_right _ _
    have hm2 : min cw (c2 + 1 - c1) ≤ c2 + 1 - c1 := Nat.min_le_right _ _
    rw [word2excel_write_apply]
    simp only
    rw [if_pos ⟨⟨by omega, by omega⟩, by omega, by omega⟩, if_neg]
    · exact ⟨borderFixCell_value _, borderFixCell_alignment _⟩
    · intro hcontra
      obtain ⟨⟨hA, hB⟩, hC, hD⟩ := hcontra
      omega

/-- C5 witness: `claim_C5_write_extent` instantiated at the irregular
scenario. -/
theorem claim_C5_witness :
    ∃ s, word2excel_main wArgsC5 wWorldC5 = .ok s ∧
      (∀ i j,
        i < min ([['x' :: [], 'y' :: [], 'z' :: []], ['1' :: [], '2' :: []]] :
          List (List Str)).length (2 + 1 - 1) →
        j < min 3 (4 + 1 - 1) →
        (s (1 + i) (1 + j)).value =
          some (if j < ((([['x' :: [], 'y' :: [], 'z' :: []],
              ['1' :: [], '2' :: []]] : List (List Str))).getD i []).length then
            ((([['x' :: [], 'y' :: [], 'z' :: []],
              ['1' :: [], '2' :: []]] : List (List Str))).getD i []).getD j []
          else [])) ∧
      (∀ r c, 1 ≤ r → r ≤ 2 → 1 ≤ c → c ≤ 4 →
        (1 + min ([['x' :: [], 'y' :: [], 'z' :: []], ['1' :: [], '2' :: []]] :
          List (List Str)).length (2 + 1 - 1) ≤ r ∨ 1 + min 3 (4 + 1 - 1) ≤ c) →
        (s r c).value =
          ((w2eSelect (ensure_workbook wWorldC5.excelOutExists wWorldC5.loadResult)
            wArgsC5.sheet) r c).value ∧
        (s r c).alignment = some xAlign) :=
  claim_C5_write_extent.1 wArgsC5 wWorldC5
    [['x' :: [], 'y' :: [], 'z' :: []], ['1' :: [], '2' :: []]] 3 1 2 1 4
    rfl (by decide) (by decide) rfl rfl (by decide) (by decide) (by decide)
    (by rfl) (by decide)

/-- C6 counterexample: a successful import into a destination workbook
whose in-range cell (1, B) — outside the copied extent — already carries a
left border leaves that cell with its old border (thick red left side,
nothing else), not with thin black borders on all four sides. -/
theorem claim_C6_counterexample :
    ((word2excel_main wArgsC6 wWorldC6).toOption.map fun s => (s 1 2).border) =
      some (some oldBorderC6) ∧
    oldBorderC6 ≠ border_style := by
  constructor
  · decide
  · decide

/-- C6 (amended): after a successful import every cell of the requested
target range has word-wrap enabled and vertical alignment top, and every
such cell whose left border was not already set beforehand (in particular
every cell of a freshly created workbook) ends up with thin black borders
on all four sides; the second formatting pass skips re-applying the border
exactly on cells whose left border is already set, so a pre-existing
differently-bordered cell beyond the copied extent keeps its old border. -/
theorem claim_C6_formatting :
    (∀ (a : W2EArgs) (w : W2EWorld) (td : List (List Str)) (cw : Nat)
        (r1 r2 c1 c2 : Nat),
      w.wordExists = true →
      parse_col_arg a.col_start = some c1 →
      parse_col_arg a.col_end = some c2 →
      a.row_start = (r1 : Int) → a.row_end = (r2 : Int) →
      1 ≤ r1 → r1 ≤ r2 → c1 ≤ c2 →
      read_table_from_word w.docOpen a.table_index = .ok td →
      maxRowLen td = some cw →
      ∃ s, word2excel_main a w = .ok s ∧
        ∀ r c, r1 ≤ r → r ≤ r2 → c1 ≤ c → c ≤ c2 →
          (s r c).alignment = some xAlign ∧
          ((((w2eSelect (ensure_workbook w.excelOutExists w.loadResult) a.sheet) r c).border =
              none ∨
            ∃ b, ((w2eSelect (ensure_workbook w.excelOutExists w.loadResult) a.sheet)
              r c).border = some b ∧ b.left = none) →
            (s r c).border = some border_style)) ∧
    (∀ (cl : XCell) (b : XBorder), cl.border = some b → b.left ≠ none →
      (borderFixCell cl).border = cl.border) := by
  refine ⟨?_, borderFixCell_skip⟩
  intro a w td cw r1 r2 c1 c2 hex h1 h2 hra hrb hr1 hr12 hc12 hread hmax
  have hok := word2excel_main_ok a w hex h1 h2
    (by rw [hra]; exact_mod_cast hr1) (by rw [hra, hrb]; exact_mod_cast hr12)
    hc12 hread hmax
  rw [hra, hrb] at hok
  simp only [Int.toNat_natCast] at hok
  refine ⟨_, hok, ?_⟩
  intro r c hrc1 hrc2 hcc1 hcc2
  have hA1 : r1 + (r2 + 1 - r1) = r2 + 1 := by omega
  have hA2 : c1 + (c2 + 1 - c1) = c2 + 1 := by omega
  rw [word2excel_write_apply]
  simp only
  rw [if_pos ⟨⟨by omega, by omega⟩, by omega, by omega⟩]
  by_cases hin : (r1 ≤ r ∧ r < r1 + min td.length (r2 + 1 - r1)) ∧
      c1 ≤ c ∧ c < c1 + min cw (c2 + 1 - c1)
  · rw [if_pos hin]
    refine ⟨borderFixCell_alignment _, fun _ => ?_⟩
    exact borderFixCell_written _ rfl
  · rw [if_neg hin]
    exact ⟨borderFixCell_alignment _, fun hb => borderFixCell_unset _ hb⟩

/-- C6 witness: `claim_C6_formatting` instantiated at the single-cell table
imported into row 1, columns A-B. -/
theorem claim_C6_witness :
    ∃ s, word2excel_main wArgsC6 wWorldC6 = .ok s ∧
      ∀ r c, 1 ≤ r → r ≤ 1 → 1 ≤ c → c ≤ 2 →
        (s r c).alignment = some xAlign ∧
        ((((w2eSelect (ensure_workbook wWorldC6.excelOutExists wWorldC6.loadResult)
              wArgsC6.sheet) r c).border = none ∨
          ∃ b, ((w2eSelect (ensure_workbook wWorldC6.excelOutExists wWorldC6.loadResult)
              wArgsC6.sheet) r c).border = some b ∧ b.left = none) →
          (s r c).border = some border_style) :=
  claim_C6_formatting.1 wArgsC6 wWorldC6 [['x' :: []]] 1 1 1 1 2 rfl (by decide)
    (by decide) rfl rfl (by decide) (by decide) (by decide) (by rfl) (by decide)

/-- C7: the importer's per-cell cleanup equals the transformation that
treats non-breaking spaces as whitespace, collapses every maximal
whitespace run to a single ASCII space and removes leading/trailing
whitespace; consequently every grid read from a document table stores
exactly that transformation of each cell's text. -/
theorem claim_C7_cell_cleanup :
    (∀ s : Str, normalizeCellText s = pyStrip (collapseRuns s)) ∧
    (∀ (doc : DocxDoc) (idx : Int) (td : List (List Str)),
      read_table_from_word (some doc) idx = .ok td →
      td = (doc.tables.getD idx.toNat []).map
        (List.map fun s => pyStrip (collapseRuns s))) := by
  refine ⟨normalizeCellText_eq_strip_collapse, ?_⟩
  intro doc idx td hread
  rw [show read_table_from_word (some doc) idx =
      (if idx < 0 ∨ (doc.tables.length : Int) ≤ idx then .error .tableIndexOutOfRange
       else .ok ((doc.tables.getD idx.toNat []).map (List.map normalizeCellText)))
    from rfl] at hread
  split at hread
  · exact absurd hread (by simp)
  · rw [Except.ok.injEq] at hread
    have hmap : (List.map normalizeCellText : List Str → List Str) =
        List.map fun s => pyStrip (collapseRuns s) := by
      funext l
      exact List.map_congr_left fun s _ => normalizeCellText_eq_strip_collapse s
    rw [← hread, hmap]

/-- C7 witness: `claim_C7_cell_cleanup` applied to the concrete irregular
table, whose cell texts are already clean. -/
theorem claim_C7_witness :
    ([[('x' :: []), ('y' :: []), ('z' :: [])], [('1' :: []), ('2' :: [])]] :
        List (List Str)) =
      (docC5.tables.getD (0 : Int).toNat []).map
        (List.map fun s => pyStrip (collapseRuns s)) :=
  claim_C7_cell_cleanup.2 docC5 0 _ (by rfl)

/-- C8: the import fails with the table-index error (and a non-zero exit)
exactly when the requested index lies outside [0, tableCount−1] of the
opened document; for an index inside the interval the selected table is
read into its cleaned-up grid and processing continues. -/
theorem claim_C8_table_index :
    ∀ (a : W2EArgs) (w : W2EWorld) (doc : DocxDoc) (c1 c2 : Nat),
      w.wordExists = true →
      parse_col_arg a.col_start = some c1 →
      parse_col_arg a.col_end = some c2 →
      1 ≤ a.row_start → a.row_start ≤ a.row_end → c1 ≤ c2 →
      w.docOpen = some doc →
      ((word2excel_main a w = .error (.readWord .tableIndexOutOfRange)) ↔
        (a.table_index < 0 ∨ (doc.tables.length : Int) ≤ a.table_index)) ∧
      (¬(a.table_index < 0 ∨ (doc.tables.length : Int) ≤ a.table_index) →
        read_table_from_word w.docOpen a.table_index =
          .ok ((doc.tables.getD a.table_index.toNat []).map
            (List.map normalizeCellText))) := by
  intro a w doc c1 c2 hex h1 h2 hr1 hr12 hc12 hopen
  have hreadeq : read_table_from_word w.docOpen a.table_index =
      (if a.table_index < 0 ∨ (doc.tables.length : Int) ≤ a.table_index then
        .error .tableIndexOutOfRange
       else .ok ((doc.tables.getD a.table_index.toNat []).map
         (List.map normalizeCellText))) := by
    rw [hopen]
    rfl
  refine ⟨⟨?_, ?_⟩, ?_⟩
  · intro hmain
    by_contra hcond
    rw [if_neg hcond] at hreadeq
    rcases hmx : maxRowLen ((doc.tables.getD a.table_index.toNat []).map
        (List.map normalizeCellText)) with _ | cw
    · have hnil := (maxRowLen_eq_none_iff _).mp hmx
      rw [hnil] at hreadeq
      rw [word2excel_main_uncaught a w hex h1 h2 hr1 hr12 hc12 hreadeq] at hmain
      simp at hmain
    · rw [word2excel_main_ok a w hex h1 h2 hr1 hr12 hc12 hreadeq hmx] at hmain
      simp at hmain
  · intro hcond
    rw [if_pos hcond] at hreadeq
    exact word2excel_main_readErr a w .tableIndexOutOfRange hex h1 h2 hr1 hr12 hc12 hreadeq
  · intro hcond
    rw [if_neg hcond] at hreadeq
    exact hreadeq

/-- C8 witness: `claim_C8_table_index` at index 5 (rejected, the document
has one table) and at index 0 (read succeeds). -/
theorem claim_C8_witness :
    word2excel_main wArgsC8 wWorldC8 = .error (.readWord .tableIndexOutOfRange) ∧
    read_table_from_word wWorldC5.docOpen wArgsC5.table_index =
      .ok ((docC5.tables.getD (wArgsC5.table_index).toNat []).map
        (List.map normalizeCellText)) :=
  ⟨(claim_C8_table_index wArgsC8 wWorldC8 docC5  1 1 rfl (by decide) (by decide)
      (by decide) (by decide) (by decide) rfl).1.mpr (by decide),
   (claim_C8_table_index wArgsC5 wWorldC5 docC5 1 4 rfl (by decide) (by decide)
      (by decide) (by decide) (by decide) rfl).2 (by decide)⟩

/-- C9: when the destination path does not exist a fresh workbook is
created, and when it exists but opening fails the importer silently falls
back to a fresh workbook and the run still completes successfully. -/
theorem claim_C9_fallback :
    (∀ lr : Option Workbook, ensure_workbook false lr = pyWorkbookNew) ∧
    ensure_workbook true none = pyWorkbookNew ∧
    (∀ (a : W2EArgs) (w : W2EWorld) (td : List (List Str)) (cw c1 c2 : Nat),
      w.wordExists = true →
      parse_col_arg a.col_start = some c1 →
      parse_col_arg a.col_end = some c2 →
      1 ≤ a.row_start → a.row_start ≤ a.row_end → c1 ≤ c2 →
      read_table_from_word w.docOpen a.table_index = .ok td →
      maxRowLen td = some cw →
      w.excelOutExists = true → w.loadResult = none →
      ∃ s, word2excel_main a w = .ok s) := by
  refine ⟨fun lr => rfl, rfl, ?_⟩
  intro a w td cw c1 c2 hex h1 h2 hr1 hr12 hc12 hread hmax _ _
  exact ⟨_, word2excel_main_ok a w hex h1 h2 hr1 hr12 hc12 hread hmax⟩

/-- C9 witness: `claim_C9_fallback` at a world whose destination file
exists but fails to load. -/
theorem claim_C9_witness :
    ensure_workbook false (some wbC6) = pyWorkbookNew ∧
    ∃ s, word2excel_main wArgsC5 wWorldC9 = .ok s :=
  ⟨claim_C9_fallback.1 (some wbC6),
   claim_C9_fallback.2.2 wArgsC5 wWorldC9
     [['x' :: [], 'y' :: [], 'z' :: []], ['1' :: [], '2' :: []]] 3 1 4 rfl
     (by decide) (by decide) (by decide) (by decide) (by decide) (by rfl)
     (by decide) rfl rfl⟩

/-- C10: the importer's grid-width computation (maximum row length) has a
value exactly when the selected table has at least one row; on a zero-row
table the computation raises outside any handler and the run aborts with a
non-zero exit before any write or save, so a non-empty table is an
unstated precondition for the import pipeline to reach those steps. -/
theorem claim_C10_empty_table :
    (∀ g : List (List Str), maxRowLen g = none ↔ g = []) ∧
    (∀ (a : W2EArgs) (w : W2EWorld) (doc : DocxDoc) (c1 c2 : Nat),
      w.wordExists = true →
      parse_col_arg a.col_start = some c1 →
      parse_col_arg a.col_end = some c2 →
      1 ≤ a.row_start → a.row_start ≤ a.row_end → c1 ≤ c2 →
      w.docOpen = some doc →
      ¬(a.table_index < 0 ∨ (doc.tables.length : Int) ≤ a.table_index) →
      doc.tables.getD a.table_index.toNat [] = [] →
      word2excel_main a w = .error .uncaughtMax) := by
  refine ⟨maxRowLen_eq_none_iff, ?_⟩
  intro a w doc c1 c2 hex h1 h2 hr1 hr12 hc12 hopen hidx hnil
  have hread : read_table_from_word w.docOpen a.table_index = .ok [] := by
    rw [hopen]
    rw [show read_table_from_word (some doc) a.table_index =
        (if a.table_index < 0 ∨ (doc.tables.length : Int) ≤ a.table_index then
          .error .tableIndexOutOfRange
         else .ok ((doc.tables.getD a.table_index.toNat []).map
           (List.map normalizeCellText))) from rfl]
    rw [if_neg hidx, hnil]
    rfl
  exact word2excel_main_uncaught a w hex h1 h2 hr1 hr12 hc12 hread

/-- C10 witness: `claim_C10_empty_table` at the document whose only table
has zero rows. -/
theorem claim_C10_witness :
    maxRowLen ([] : List (List Str)) = none ∧
    word2excel_main wArgsC10 wWorldC10 = .error .uncaughtMax :=
  ⟨(claim_C10_empty_table.1 []).mpr rfl,
   claim_C10_empty_table.2 wArgsC10 wWorldC10 docC10 1 1 rfl (by decide) (by decide)
     (by decide) (by decide) (by decide) rfl (by decide) rfl⟩

/-- C1 counterexample: exporting the 1×1 region holding " a" (leading
whitespace) and importing it back yields "a": the import path also trims
leading and trailing whitespace, so the reproduced value differs from the
original text with its embedded whitespace runs merely collapsed to single
spaces (collapseRuns " a" = " a" ≠ "a"). -/
theorem claim_C1_counterexample :
    ((word2excel_main wArgsC1 wWorldC1).toOption.map fun s => (s 1 1).value) =
      some (some ('a' :: [])) ∧
    collapseRuns (' ' :: 'a' :: []) = (' ' :: 'a' :: []) ∧
    some (some ('a' :: [])) ≠ some (some (collapseRuns (' ' :: 'a' :: []))) := by
  refine ⟨by decide, by decide, by decide⟩

/-- C1 (amended): exporting a region and importing the resulting
single-table document back into a spreadsheet range of equal dimensions
reproduces each cell's text up to the import path's cleanup: non-breaking
spaces count as whitespace, every maximal whitespace run collapses to a
single space, and leading and trailing whitespace is removed. -/
theorem claim_C1_round_trip :
    ∀ (a : E2WArgs) (w : E2WWorld) (wb : E2WWorkbook) (ws : SheetData)
      (a' : W2EArgs) (w' : W2EWorld) (r1 r2 c1 c2 R1 R2 d1 d2 : Nat),
      w.excelExists = true →
      parse_col_arg a.col_start = some c1 →
      parse_col_arg a.col_end = some c2 →
      a.row_start = (r1 : Int) → a.row_end = (r2 : Int) →
      1 ≤ r1 → r1 ≤ r2 → c1 ≤ c2 →
      w.loadResult = some wb → e2wSelect wb a.sheet = some ws →
      w'.wordExists = true →
      w'.docOpen = (excel2word_main a w).toOption →
      a'.table_index = 0 →
      parse_col_arg a'.col_start = some d1 →
      parse_col_arg a'.col_end = some d2 →
      a'.row_start = (R1 : Int) → a'.row_end = (R2 : Int) →
      1 ≤ R1 → R1 ≤ R2 → d1 ≤ d2 →
      R2 + 1 - R1 = r2 + 1 - r1 → d2 + 1 - d1 = c2 + 1 - c1 →
      ∃ s, word2excel_main a' w' = .ok s ∧
        ∀ i j, i < r2 + 1 - r1 → j < c2 + 1 - c1 →
          (s (R1 + i) (d1 + j)).value =
            some (pyStrip (collapseRuns (pyStr (ws (r1 + i) (c1 + j))))) := by
  intro a w wb ws a' w' r1 r2 c1 c2 R1 R2 d1 d2 hex h1 h2 hra hrb hr1 hr12 hc12
    hload hsel hex' hdoc hidx h1' h2' hra' hrb' hR1 hR12 hd12 hdimR hdimC
  have hokE := excel2word_main_ok a w hex h1 h2
    (by rw [hra]; exact_mod_cast hr1) (by rw [hra, hrb]; exact_mod_cast hr12)
    hc12 hload hsel
  rw [hra, hrb] at hokE
  simp only [Int.toNat_natCast] at hokE
  rw [mkDocument_rows] at hokE
  set data := regionData ws r1 r2 c1 c2 with hdata
  set rows := (List.range (r2 + 1 - r1)).map fun i =>
    (List.range (c2 + 1 - c1)).map fun j => (data.getD i []).getD j [] with hrows
  have hdoc2 : w'.docOpen = some ⟨[rows]⟩ := by
    rw [hdoc, hokE]
    rfl
  have hread : read_table_from_word w'.docOpen a'.table_index =
      .ok (rows.map (List.map normalizeCellText)) := by
    rw [hdoc2, hidx]
    rfl
  set td := rows.map (List.map normalizeCellText) with htd
  have hrowslen : rows.length = r2 + 1 - r1 := by
    rw [hrows]
    simp
  have htdlen : td.length = r2 + 1 - r1 := by
    rw [htd, List.length_map, hrowslen]
  have hrowlen : ∀ u ∈ td, u.length = c2 + 1 - c1 := by
    intro u hu
    rw [htd] at hu
    obtain ⟨v, hv, huv⟩ := List.mem_map.mp hu
    rw [hrows] at hv
    obtain ⟨i, hi, hvi⟩ := List.mem_map.mp hv
    rw [← huv, List.length_map, ← hvi, List.length_map, List.length_range]
  have hne : td ≠ [] := by
    have : 0 < td.length := by omega
    exact List.length_pos.mp this
  have hmax : maxRowLen td = some (c2 + 1 - c1) := maxRowLen_uniform hne hrowlen
  have hokI := word2excel_main_ok a' w' hex' h1' h2'
    (by rw [hra']; exact_mod_cast hR1) (by rw [hra', hrb']; exact_mod_cast hR12)
    hd12 hread hmax
  rw [hra', hrb'] at hokI
  simp only [Int.toNat_natCast] at hokI
  refine ⟨_, hokI, ?_⟩
  intro i j hi hj
  rw [word2excel_write_apply]
  simp only
  have hminR : min td.length (R2 + 1 - R1) = r2 + 1 - r1 := by
    rw [htdlen, hdimR]
    exact Nat.min_self _
  have hminC : min (c2 + 1 - c1) (d2 + 1 - d1) = c2 + 1 - c1 := by
    rw [hdimC]
    exact Nat.min_self _
  rw [if_pos ⟨⟨by omega, by rw [hdimR]; omega⟩, by omega, by rw [hdimC]; omega⟩,
    if_pos ⟨⟨by omega, by rw [hminR]; omega⟩, by omega, by rw [hminC]; omega⟩]
  rw [borderFixCell_value]
  simp only
  have hii : R1 + i - R1 = i := by omega
  have hjj : d1 + j - d1 = j := by omega
  rw [hii, hjj]
  have hitd : i < td.length := by omega
  have hirow : i < rows.length := by omega
  have hrowi : rows.getD i [] =
      (List.range (c2 + 1 - c1)).map fun j => (data.getD i []).getD j [] := by
    rw [hrows]
    exact getD_range_map _ (by omega) []
  have htdi : td.getD i [] = (rows.getD i []).map normalizeCellText := by
    rw [htd]
    exact getD_map_of_lt _ hirow [] []
  have hlen_tdi : (td.getD i []).length = c2 + 1 - c1 := by
    rw [htdi, List.length_map, hrowi]
    simp
  rw [if_pos (by rw [hlen_tdi]; omega)]
  have hjrow : j < (rows.getD i []).length := by
    rw [hrowi]
    simp
    omega
  rw [htdi, getD_map_of_lt _ hjrow [] [], hrowi, getD_range_map _ hj []]
  rw [hdata, regionData_cell ws r1 r2 c1 c2 hi hj,
    normalizeCellText_eq_strip_collapse]

/-- C1 witness: `claim_C1_round_trip` at the concrete 1×1 round trip of
the value " a". -/
theorem claim_C1_witness :
    ∃ s, word2excel_main wArgsC1 wWorldC1 = .ok s ∧
      ∀ i j, i < 1 + 1 - 1 → j < 1 + 1 - 1 →
        (s (1 + i) (1 + j)).value =
          some (pyStrip (collapseRuns (pyStr (wsC1 (1 + i) (1 + j))))) :=
  claim_C1_round_trip eArgsC1 eWorldC1 ⟨[], wsC1⟩ wsC1 wArgsC1 wWorldC1
    1 1 1 1 1 1 1 1 rfl (by decide) (by decide) rfl rfl (by decide) (by decide)
    (by decide) rfl rfl rfl rfl rfl (by decide) (by decide) rfl rfl (by decide)
    (by decide) (by decide) rfl rfl

end WordExcel
